import Mathlib

/-!
# Verification of the crossword placement engine (`utils/render.go`)

Shallow embedding of the grid placement engine of `crossword-go`:
the `Crossword` state (board, per-orientation occupancy maps `hWords` /
`vWords`, used-word set, placement list, per-orientation counters) and the
operations `isValidPosition`, `canBePlaced`, `putWord`, `findBestPosition`,
`removeWord`, `hasAdjacentWords` and `GeneratePuzzle`.

Modelling conventions, matching the Go source:
* the board is `height` rows of `width` cells; `board[x][y]` has `x` as the
  row index and `y` as the column index, exactly as in the source;
* coordinates are `Int` (Go `int`): expressions such as `x-1` or `y+len`
  may be negative or out of range and are kept guarded by
  `isValidPosition`, as in the source;
* words are `List Char` (the source indexes a Go string byte-wise and
  converts with `rune`; all inputs in the repository are ASCII);
* the used-word set (a Go `map[string]bool` that only ever stores `true`)
  is a `List (List Char)` with membership, insertion at the head, and
  deletion by filtering out the word (Go `delete` removes the key, so
  membership afterwards is false);
* `putWord` and `removeWord` in Go index the board without bounds checks
  (an out-of-range index would panic); the embedding's cell writers ignore
  out-of-range writes.  All uses in the development are in-bounds, guarded
  by `canBePlaced` acceptance or matching a guarded placement;
* the wall-clock deadline test `time.Since(startTime) > maxTime`, read once
  per recursive call of `generate`, is modelled by a stream
  `expired : Nat → Bool` of successive clock readings; a real clock gives a
  monotone stream (once expired, always expired), which theorems take as a
  hypothesis where needed;
* `rand.Intn n` in `findBestPosition` is modelled by an arbitrary chooser
  `Nat → Nat` (one value consulted per call, reduced mod the size of the
  tied set, so every possible random outcome is covered);
* the recursion `generate pos` of `GeneratePuzzle` descends on
  `len words - pos`, which the embedding makes explicit as fuel; the base
  case `fuel = 0` is exactly the source's `pos >= len(words)` test, which
  the source performs before the deadline test.
-/

namespace CrosswordGo

/-- Orientation of a word (`Direction` in the source, `Horizontal = 0`,
`Vertical = 1`). -/
inductive Direction where
  | horizontal
  | vertical
deriving DecidableEq

/-- A candidate position produced during search (`Position` in the source). -/
structure Position where
  x : Int
  y : Int
  dir : Direction
deriving DecidableEq

/-- A committed placement record (`WordPlacement` in the source). -/
structure WordPlacement where
  x : Int
  y : Int
  dir : Direction
  length : Nat
  word : List Char
deriving DecidableEq

/-- The engine state (`Crossword` in the source). -/
structure Crossword where
  board : List (List Char)
  hWords : List (List Nat)
  vWords : List (List Nat)
  width : Int
  height : Int
  usedWords : List (List Char)
  placements : List WordPlacement
  hCount : Nat
  vCount : Nat
deriving DecidableEq

/-- Read a cell of a row-major matrix, with a default for out-of-range
indices. -/
def get2 (m : List (List α)) (dflt : α) (x y : Nat) : α :=
  (m.getD x []).getD y dflt

/-- Write a cell of a row-major matrix; out-of-range writes are dropped. -/
def set2 (m : List (List α)) (x y : Nat) (a : α) : List (List α) :=
  m.set x ((m.getD x []).set y a)

/-- `NewCrossword` creates a fresh state: an all-blank `height × width`
board, all-zero occupancy maps, no used words, no placements. -/
def NewCrossword (width height : Nat) : Crossword where
  board := List.replicate height (List.replicate width ' ')
  hWords := List.replicate height (List.replicate width 0)
  vWords := List.replicate height (List.replicate width 0)
  width := width
  height := height
  usedWords := []
  placements := []
  hCount := 0
  vCount := 0

/-- `isValidPosition`: the coordinates lie inside the board. -/
def isValidPosition (c : Crossword) (x y : Int) : Bool :=
  0 ≤ x && x < c.height && 0 ≤ y && y < c.width

/-- Read `c.board[x][y]` (blank when out of range; the source only reads
in-range cells). -/
def getCellB (c : Crossword) (x y : Int) : Char :=
  if 0 ≤ x ∧ 0 ≤ y then get2 c.board ' ' x.toNat y.toNat else ' '

/-- Read `c.hWords[x][y]` (zero when out of range). -/
def getH (c : Crossword) (x y : Int) : Nat :=
  if 0 ≤ x ∧ 0 ≤ y then get2 c.hWords 0 x.toNat y.toNat else 0

/-- Read `c.vWords[x][y]` (zero when out of range). -/
def getV (c : Crossword) (x y : Int) : Nat :=
  if 0 ≤ x ∧ 0 ≤ y then get2 c.vWords 0 x.toNat y.toNat else 0

/-- Write `c.board[x][y]` (out-of-range writes dropped; only used
in-bounds). -/
def setCellB (c : Crossword) (x y : Int) (ch : Char) : Crossword :=
  if 0 ≤ x ∧ 0 ≤ y then { c with board := set2 c.board x.toNat y.toNat ch }
  else c

/-- Write `c.hWords[x][y]`. -/
def setH (c : Crossword) (x y : Int) (v : Nat) : Crossword :=
  if 0 ≤ x ∧ 0 ≤ y then { c with hWords := set2 c.hWords x.toNat y.toNat v }
  else c

/-- Write `c.vWords[x][y]`. -/
def setV (c : Crossword) (x y : Int) (v : Nat) : Crossword :=
  if 0 ≤ x ∧ 0 ≤ y then { c with vWords := set2 c.vWords x.toNat y.toNat v }
  else c

/-- The per-cell tests of the scan loop of `canBePlaced` at cell `(x, y)`
carrying letter `ch`: the cell is in range, blank or already holding the
letter, and the same-orientation map has no positive entry in the two
perpendicular-adjacent cells. -/
def cellOk (c : Crossword) (ch : Char) (x y : Int) (dir : Direction) : Bool :=
  isValidPosition c x y &&
  (getCellB c x y == ' ' || getCellB c x y == ch) &&
  (match dir with
   | .horizontal =>
     !(isValidPosition c (x-1) y && decide (0 < getH c (x-1) y)) &&
     !(isValidPosition c (x+1) y && decide (0 < getH c (x+1) y))
   | .vertical =>
     !(isValidPosition c x (y-1) && decide (0 < getV c x (y-1))) &&
     !(isValidPosition c x (y+1) && decide (0 < getV c x (y+1))))

/-- The scan loop of `canBePlaced`: walk the word's cells in sequence,
failing (`none`) on the first bad cell and otherwise counting the cells
whose existing character already equals the word's character. -/
def scanWord (c : Crossword) : List Char → Int → Int → Direction → Option Nat
  | [], _, _, _ => some 0
  | ch :: rest, x, y, dir =>
    if cellOk c ch x y dir then
      (match dir with
       | .horizontal => scanWord c rest x (y+1) dir
       | .vertical => scanWord c rest (x+1) y dir).map
        (fun n => (if getCellB c x y == ch then 1 else 0) + n)
    else none

/-- The final check of `canBePlaced`: the cell immediately before the start
and the one immediately after the end (along the axis) are blank or a block
marker, unless they fall outside the grid. -/
def endsOk (c : Crossword) (word : List Char) (x y : Int)
    (dir : Direction) : Bool :=
  match dir with
  | .horizontal =>
    !(isValidPosition c x (y-1) && getCellB c x (y-1) != ' ' &&
      getCellB c x (y-1) != '*') &&
    !(isValidPosition c x (y + word.length) &&
      getCellB c x (y + word.length) != ' ' &&
      getCellB c x (y + word.length) != '*')
  | .vertical =>
    !(isValidPosition c (x-1) y && getCellB c (x-1) y != ' ' &&
      getCellB c (x-1) y != '*') &&
    !(isValidPosition c (x + word.length) y &&
      getCellB c (x + word.length) y != ' ' &&
      getCellB c (x + word.length) y != '*')

/-- `canBePlaced`: `-1` when the placement is rejected, otherwise the
number of intersections (cells already holding the matching letter). -/
def canBePlaced (c : Crossword) (word : List Char) (x y : Int)
    (dir : Direction) : Int :=
  match scanWord c word x y dir with
  | none => -1
  | some n => if endsOk c word x y dir then n else -1

/-- The write loop of `putWord`: write each letter into the grid and stamp
the orientation's occupancy map with `value`. -/
def placeCells (value : Nat) :
    List Char → Int → Int → Direction → Crossword → Crossword
  | [], _, _, _, c => c
  | ch :: rest, x, y, dir, c =>
    let c1 := setCellB c x y ch
    let c2 := match dir with
      | .horizontal => setH c1 x y value
      | .vertical => setV c1 x y value
    match dir with
    | .horizontal => placeCells value rest x (y+1) dir c2
    | .vertical => placeCells value rest (x+1) y dir c2

/-- `putWord`: no-op when the word is already used; otherwise bump the
orientation's counter, mark the word used, append a placement record,
write the letters and occupancy entries, and place the two boundary block
markers (where in range). -/
def putWord (c : Crossword) (word : List Char) (x y : Int)
    (dir : Direction) : Crossword :=
  if word ∈ c.usedWords then c
  else
    let value := match dir with
      | .horizontal => c.hCount + 1
      | .vertical => c.vCount + 1
    let c1 := match dir with
      | .horizontal => { c with hCount := c.hCount + 1 }
      | .vertical => { c with vCount := c.vCount + 1 }
    let c2 := { c1 with
      usedWords := word :: c1.usedWords
      placements := c1.placements ++
        [⟨x, y, dir, word.length, word⟩] }
    let c3 := placeCells value word x y dir c2
    match dir with
    | .horizontal =>
      let c4 := if isValidPosition c3 x (y-1) then setCellB c3 x (y-1) '*'
                else c3
      if isValidPosition c4 x (y + word.length) then
        setCellB c4 x (y + word.length) '*'
      else c4
    | .vertical =>
      let c4 := if isValidPosition c3 (x-1) y then setCellB c3 (x-1) y '*'
                else c3
      if isValidPosition c4 (x + word.length) y then
        setCellB c4 (x + word.length) y '*'
      else c4

/-- The enumeration order of `findBestPosition`: all rows, then all
columns, then both orientations. -/
def candidates (c : Crossword) : List Position :=
  (List.range c.height.toNat).flatMap fun x =>
    (List.range c.width.toNat).flatMap fun y =>
      [⟨(x : Int), (y : Int), .horizontal⟩, ⟨(x : Int), (y : Int), .vertical⟩]

/-- One step of the accumulation in `findBestPosition`: skip rejected
candidates; a strictly better score resets the tied list; an equal score
appends. -/
def stepBest (c : Crossword) (word : List Char) (acc : Int × List Position)
    (p : Position) : Int × List Position :=
  let s := canBePlaced c word p.x p.y p.dir
  if s < 0 then acc
  else if acc.1 < s then (s, [p])
  else if s = acc.1 then (acc.1, acc.2 ++ [p])
  else acc

/-- The list of best (tied maximum-score) accepted positions accumulated by
`findBestPosition`. -/
def findBestPositions (c : Crossword) (word : List Char) : List Position :=
  ((candidates c).foldl (stepBest c word) (-1, [])).2

/-- `findBestPosition`: `none` when no candidate is accepted, otherwise the
member of the tied best list selected by the random draw `k`
(`rand.Intn` modelled as an arbitrary `k` reduced mod the list length). -/
def findBestPosition (c : Crossword) (word : List Char) (k : Nat) :
    Option Position :=
  let bs := findBestPositions c word
  if bs = [] then none
  else some (bs.getD (k % bs.length) ⟨0, 0, .horizontal⟩)

/-- `hasAdjacentWords`: some in-range neighbour (right, down, left, up)
holds a letter (neither blank nor the block marker). -/
def hasAdjacentWords (c : Crossword) (x y : Int) : Bool :=
  [((0:Int), (1:Int)), (1, 0), (0, -1), (-1, 0)].any fun d =>
    isValidPosition c (x + d.1) (y + d.2) &&
    getCellB c (x + d.1) (y + d.2) != ' ' &&
    getCellB c (x + d.1) (y + d.2) != '*'

/-- The clear loop of `removeWord` over `n` remaining cells: zero the
orientation's occupancy entry and blank the grid cell when the opposite
orientation has no claim there. -/
def clearCells : Nat → Int → Int → Direction → Crossword → Crossword
  | 0, _, _, _, c => c
  | n+1, x, y, dir, c =>
    match dir with
    | .horizontal =>
      let c1 := setH c x y 0
      let c2 := if getV c1 x y = 0 then setCellB c1 x y ' ' else c1
      clearCells n x (y+1) .horizontal c2
    | .vertical =>
      let c1 := setV c x y 0
      let c2 := if getH c1 x y = 0 then setCellB c1 x y ' ' else c1
      clearCells n (x+1) y .vertical c2

/-- `removeWord`: delete the word from the used set, clear the
orientation's occupancy entries along the span (blanking cells with no
crossing claim), then blank each of the two boundary block cells that is in
range and has no adjacent letters. -/
def removeWord (c : Crossword) (word : List Char) (x y : Int)
    (dir : Direction) : Crossword :=
  let c0 := { c with usedWords := c.usedWords.filter (fun u => u != word) }
  let c1 := clearCells word.length x y dir c0
  match dir with
  | .horizontal =>
    let c2 := if isValidPosition c1 x (y-1) && !hasAdjacentWords c1 x (y-1)
              then setCellB c1 x (y-1) ' ' else c1
    if isValidPosition c2 x (y + word.length) &&
       !hasAdjacentWords c2 x (y + word.length)
    then setCellB c2 x (y + word.length) ' ' else c2
  | .vertical =>
    let c2 := if isValidPosition c1 (x-1) y && !hasAdjacentWords c1 (x-1) y
              then setCellB c1 (x-1) y ' ' else c1
    if isValidPosition c2 (x + word.length) y &&
       !hasAdjacentWords c2 (x + word.length) y
    then setCellB c2 (x + word.length) y ' ' else c2

/-- The recursive closure `generate` of `GeneratePuzzle`.  Arguments:
fuel (`len words - pos`, so `fuel = 0` is the source's `pos >= len(words)`
success test, performed before the deadline test), the position `pos`, the
clock-reading index `t`, and the state.  Returns the success flag, the
final state and the next clock index. -/
def generateAux (ws : List (List Char)) (chooser : Nat → Nat)
    (expired : Nat → Bool) :
    Nat → Nat → Nat → Crossword → Bool × Crossword × Nat
  | 0, _, t, c => (true, c, t)
  | fuel+1, pos, t, c =>
    if expired t then (false, c, t+1)
    else
      let word := ws.getD pos []
      match findBestPosition c word (chooser t) with
      | some p =>
        let c1 := putWord c word p.x p.y p.dir
        let r := generateAux ws chooser expired fuel (pos+1) (t+1) c1
        if r.1 then r
        else
          let c3 := removeWord r.2.1 word p.x p.y p.dir
          generateAux ws chooser expired fuel (pos+1) r.2.2 c3
      | none => generateAux ws chooser expired fuel (pos+1) (t+1) c

/-- `GeneratePuzzle`: run the backtracking search from position 0 with a
fresh clock. -/
def GeneratePuzzle (c : Crossword) (ws : List (List Char))
    (chooser : Nat → Nat) (expired : Nat → Bool) : Bool × Crossword × Nat :=
  generateAux ws chooser expired ws.length 0 0 c

/-- The row of cell `i` (0-based offset into the word) of a span starting
at `(x, y)`. -/
def spanX (dir : Direction) (x : Int) (i : Nat) : Int :=
  match dir with
  | .horizontal => x
  | .vertical => x + i

/-- The column of cell `i` of a span starting at `(x, y)`. -/
def spanY (dir : Direction) (y : Int) (i : Nat) : Int :=
  match dir with
  | .horizontal => y + i
  | .vertical => y

/-- The orientation's own occupancy entry at a cell. -/
def ownMap (dir : Direction) (c : Crossword) (x y : Int) : Nat :=
  match dir with
  | .horizontal => getH c x y
  | .vertical => getV c x y

/-- The opposite orientation's occupancy entry at a cell. -/
def oppMap (dir : Direction) (c : Crossword) (x y : Int) : Nat :=
  match dir with
  | .horizontal => getV c x y
  | .vertical => getH c x y

/-- The two boundary cells (immediately before the start and after the end
of the span) into which `putWord` writes block markers. -/
def boundaryCells (dir : Direction) (x y : Int) (n : Nat) :
    List (Int × Int) :=
  match dir with
  | .horizontal => [(x, y - 1), (x, y + n)]
  | .vertical => [(x - 1, y), (x + n, y)]

/-! ## Basic list and matrix lemmas -/

theorem getD_set_self (l : List α) (i : Nat) (a d : α) (h : i < l.length) :
    (l.set i a).getD i d = a := by
  induction l generalizing i with
  | nil => simp at h
  | cons x xs ih =>
    cases i with
    | zero => rfl
    | succ i => exact ih i (by simpa using h)

theorem getD_set_ne (l : List α) (i j : Nat) (a d : α) (h : i ≠ j) :
    (l.set i a).getD j d = l.getD j d := by
  induction l generalizing i j with
  | nil => rfl
  | cons x xs ih =>
    cases i with
    | zero =>
      cases j with
      | zero => exact absurd rfl h
      | succ j => rfl
    | succ i =>
      cases j with
      | zero => rfl
      | succ j => exact ih i j (fun hh => h (by omega))

theorem getD_oob (l : List α) (i : Nat) (d : α) (h : l.length ≤ i) :
    l.getD i d = d :=
  List.getD_eq_default l d h

theorem length_set2 (m : List (List α)) (x y : Nat) (a : α) :
    (set2 m x y a).length = m.length := by
  simp [set2]

theorem rowlen_set2 (m : List (List α)) (x y : Nat) (a : α) (i : Nat) :
    ((set2 m x y a).getD i []).length = (m.getD i []).length := by
  unfold set2
  by_cases hx : x = i
  · subst hx
    by_cases hlen : x < m.length
    · rw [getD_set_self _ _ _ _ hlen]; simp
    · rw [List.set_eq_of_length_le (by omega)]
  · rw [getD_set_ne _ _ _ _ _ hx]

theorem get2_set2_self (m : List (List α)) (d a : α) (x y : Nat)
    (hx : x < m.length) (hy : y < (m.getD x []).length) :
    get2 (set2 m x y a) d x y = a := by
  unfold get2 set2
  rw [getD_set_self _ _ _ _ hx]
  exact getD_set_self _ _ _ _ hy

theorem get2_set2_ne (m : List (List α)) (d a : α) (x y a' b' : Nat)
    (h : ¬(x = a' ∧ y = b')) :
    get2 (set2 m x y a) d a' b' = get2 m d a' b' := by
  unfold get2 set2
  by_cases hx : x = a'
  · subst hx
    have hy : y ≠ b' := fun hy => h ⟨rfl, hy⟩
    by_cases hlen : x < m.length
    · rw [getD_set_self _ _ _ _ hlen, getD_set_ne _ _ _ _ _ hy]
    · rw [List.set_eq_of_length_le (by omega)]
  · rw [getD_set_ne _ _ _ _ _ hx]

/-- Matrix extensionality: same shape and same `get2` everywhere. -/
theorem mat_ext (m m' : List (List α)) (d : α)
    (h1 : m.length = m'.length)
    (h2 : ∀ i, (m.getD i []).length = (m'.getD i []).length)
    (h3 : ∀ i j, get2 m d i j = get2 m' d i j) : m = m' := by
  apply List.ext_getElem h1
  intro i hi hi'
  apply List.ext_getElem
  · have := h2 i
    rwa [List.getD_eq_getElem _ _ hi, List.getD_eq_getElem _ _ hi'] at this
  · intro j hj hj'
    have := h3 i j
    unfold get2 at this
    rwa [List.getD_eq_getElem _ _ hi, List.getD_eq_getElem _ _ hi',
      List.getD_eq_getElem _ _ hj, List.getD_eq_getElem _ _ hj'] at this

theorem get2_replicate (d a : α) (h w x y : Nat) :
    get2 (List.replicate h (List.replicate w a)) d x y =
      if x < h ∧ y < w then a else d := by
  unfold get2
  by_cases hx : x < h
  · have hrow : (List.replicate h (List.replicate w a)).getD x [] =
        List.replicate w a := by
      rw [List.getD_eq_getElem _ _ (by simpa using hx)]; simp
    rw [hrow]
    by_cases hy : y < w
    · rw [List.getD_eq_getElem _ _ (by simpa using hy)]; simp [hx, hy]
    · rw [getD_oob _ _ _ (by simpa using Nat.le_of_not_lt hy)]; simp [hy]
  · have hrow : (List.replicate h (List.replicate w a)).getD x [] = [] := by
      rw [getD_oob _ _ _ (by simpa using Nat.le_of_not_lt hx)]
    rw [hrow]; simp [hx]

/-! ## Frame lemmas for the cell writers -/

theorem setCellB_hWords (c : Crossword) (x y : Int) (ch : Char) :
    (setCellB c x y ch).hWords = c.hWords := by
  unfold setCellB; split <;> rfl

theorem setCellB_vWords (c : Crossword) (x y : Int) (ch : Char) :
    (setCellB c x y ch).vWords = c.vWords := by
  unfold setCellB; split <;> rfl

theorem setCellB_usedWords (c : Crossword) (x y : Int) (ch : Char) :
    (setCellB c x y ch).usedWords = c.usedWords := by
  unfold setCellB; split <;> rfl

theorem setCellB_placements (c : Crossword) (x y : Int) (ch : Char) :
    (setCellB c x y ch).placements = c.placements := by
  unfold setCellB; split <;> rfl

theorem setCellB_width (c : Crossword) (x y : Int) (ch : Char) :
    (setCellB c x y ch).width = c.width := by
  unfold setCellB; split <;> rfl

theorem setCellB_height (c : Crossword) (x y : Int) (ch : Char) :
    (setCellB c x y ch).height = c.height := by
  unfold setCellB; split <;> rfl

theorem setH_board (c : Crossword) (x y : Int) (v : Nat) :
    (setH c x y v).board = c.board := by
  unfold setH; split <;> rfl

theorem setH_vWords (c : Crossword) (x y : Int) (v : Nat) :
    (setH c x y v).vWords = c.vWords := by
  unfold setH; split <;> rfl

theorem setH_usedWords (c : Crossword) (x y : Int) (v : Nat) :
    (setH c x y v).usedWords = c.usedWords := by
  unfold setH; split <;> rfl

theorem setH_placements (c : Crossword) (x y : Int) (v : Nat) :
    (setH c x y v).placements = c.placements := by
  unfold setH; split <;> rfl

theorem setH_width (c : Crossword) (x y : Int) (v : Nat) :
    (setH c x y v).width = c.width := by
  unfold setH; split <;> rfl

theorem setH_height (c : Crossword) (x y : Int) (v : Nat) :
    (setH c x y v).height = c.height := by
  unfold setH; split <;> rfl

theorem setV_board (c : Crossword) (x y : Int) (v : Nat) :
    (setV c x y v).board = c.board := by
  unfold setV; split <;> rfl

theorem setV_hWords (c : Crossword) (x y : Int) (v : Nat) :
    (setV c x y v).hWords = c.hWords := by
  unfold setV; split <;> rfl

theorem setV_usedWords (c : Crossword) (x y : Int) (v : Nat) :
    (setV c x y v).usedWords = c.usedWords := by
  unfold setV; split <;> rfl

theorem setV_placements (c : Crossword) (x y : Int) (v : Nat) :
    (setV c x y v).placements = c.placements := by
  unfold setV; split <;> rfl

theorem setV_width (c : Crossword) (x y : Int) (v : Nat) :
    (setV c x y v).width = c.width := by
  unfold setV; split <;> rfl

theorem setV_height (c : Crossword) (x y : Int) (v : Nat) :
    (setV c x y v).height = c.height := by
  unfold setV; split <;> rfl

/-! ## Pointwise lemmas for the cell writers -/

theorem get2_set2_default (m : List (List α)) (d : α) (x y : Nat) :
    get2 (set2 m x y d) d x y = d := by
  by_cases hx : x < m.length
  · by_cases hy : y < (m.getD x []).length
    · exact get2_set2_self _ _ _ _ _ hx hy
    · unfold get2 set2
      rw [getD_set_self _ _ _ _ hx, getD_oob]
      simpa using Nat.le_of_not_lt hy
  · unfold get2 set2
    rw [List.set_eq_of_length_le (Nat.le_of_not_lt hx),
      getD_oob _ _ _ (Nat.le_of_not_lt hx)]
    simp

theorem getH_setH_zero (c : Crossword) (x y : Int) :
    getH (setH c x y 0) x y = 0 := by
  by_cases hxy : 0 ≤ x ∧ 0 ≤ y
  · simp only [getH, setH, if_pos hxy]
    exact get2_set2_default _ _ _ _
  · simp only [getH, setH, if_neg hxy]

theorem getH_setH_ne (c : Crossword) (x y a b : Int) (v : Nat)
    (h : ¬(a = x ∧ b = y)) : getH (setH c x y v) a b = getH c a b := by
  by_cases hxy : 0 ≤ x ∧ 0 ≤ y
  · by_cases hab : 0 ≤ a ∧ 0 ≤ b
    · simp only [getH, setH, if_pos hxy, if_pos hab]
      refine get2_set2_ne _ _ _ _ _ _ _ ?_
      rintro ⟨h1, h2⟩
      exact h ⟨by omega, by omega⟩
    · simp only [getH, setH, if_pos hxy, if_neg hab]
  · simp only [getH, setH, if_neg hxy]

theorem getH_setH_self_of (c : Crossword) (x y : Int) (v : Nat)
    (hxy : 0 ≤ x ∧ 0 ≤ y) (hx : x.toNat < c.hWords.length)
    (hy : y.toNat < (c.hWords.getD x.toNat []).length) :
    getH (setH c x y v) x y = v := by
  simp only [getH, setH, if_pos hxy]
  exact get2_set2_self _ _ _ _ _ hx hy

theorem getV_setV_zero (c : Crossword) (x y : Int) :
    getV (setV c x y 0) x y = 0 := by
  by_cases hxy : 0 ≤ x ∧ 0 ≤ y
  · simp only [getV, setV, if_pos hxy]
    exact get2_set2_default _ _ _ _
  · simp only [getV, setV, if_neg hxy]

theorem getV_setV_ne (c : Crossword) (x y a b : Int) (v : Nat)
    (h : ¬(a = x ∧ b = y)) : getV (setV c x y v) a b = getV c a b := by
  by_cases hxy : 0 ≤ x ∧ 0 ≤ y
  · by_cases hab : 0 ≤ a ∧ 0 ≤ b
    · simp only [getV, setV, if_pos hxy, if_pos hab]
      refine get2_set2_ne _ _ _ _ _ _ _ ?_
      rintro ⟨h1, h2⟩
      exact h ⟨by omega, by omega⟩
    · simp only [getV, setV, if_pos hxy, if_neg hab]
  · simp only [getV, setV, if_neg hxy]

theorem getV_setV_self_of (c : Crossword) (x y : Int) (v : Nat)
    (hxy : 0 ≤ x ∧ 0 ≤ y) (hx : x.toNat < c.vWords.length)
    (hy : y.toNat < (c.vWords.getD x.toNat []).length) :
    getV (setV c x y v) x y = v := by
  simp only [getV, setV, if_pos hxy]
  exact get2_set2_self _ _ _ _ _ hx hy

theorem getCellB_setCellB_blank (c : Crossword) (x y : Int) :
    getCellB (setCellB c x y ' ') x y = ' ' := by
  by_cases hxy : 0 ≤ x ∧ 0 ≤ y
  · simp only [getCellB, setCellB, if_pos hxy]
    exact get2_set2_default _ _ _ _
  · simp only [getCellB, setCellB, if_neg hxy]

theorem getCellB_setCellB_ne (c : Crossword) (x y a b : Int) (ch : Char)
    (h : ¬(a = x ∧ b = y)) :
    getCellB (setCellB c x y ch) a b = getCellB c a b := by
  by_cases hxy : 0 ≤ x ∧ 0 ≤ y
  · by_cases hab : 0 ≤ a ∧ 0 ≤ b
    · simp only [getCellB, setCellB, if_pos hxy, if_pos hab]
      refine get2_set2_ne _ _ _ _ _ _ _ ?_
      rintro ⟨h1, h2⟩
      exact h ⟨by omega, by omega⟩
    · simp only [getCellB, setCellB, if_pos hxy, if_neg hab]
  · simp only [getCellB, setCellB, if_neg hxy]

theorem getCellB_setCellB_self_of (c : Crossword) (x y : Int) (ch : Char)
    (hxy : 0 ≤ x ∧ 0 ≤ y) (hx : x.toNat < c.board.length)
    (hy : y.toNat < (c.board.getD x.toNat []).length) :
    getCellB (setCellB c x y ch) x y = ch := by
  simp only [getCellB, setCellB, if_pos hxy]
  exact get2_set2_self _ _ _ _ _ hx hy

/-- Readers only depend on the corresponding field (plus width/height for
`isValidPosition`), so writers to other fields are invisible. -/
theorem getH_board_irrel (c : Crossword) (m : List (List Char)) (x y : Int) :
    getH { c with board := m } x y = getH c x y := rfl

theorem isValid_setCellB (c : Crossword) (x y a b : Int) (ch : Char) :
    isValidPosition (setCellB c x y ch) a b = isValidPosition c a b := by
  unfold isValidPosition
  rw [setCellB_width, setCellB_height]

theorem isValid_setH (c : Crossword) (x y a b : Int) (v : Nat) :
    isValidPosition (setH c x y v) a b = isValidPosition c a b := by
  unfold isValidPosition
  rw [setH_width, setH_height]

theorem isValid_setV (c : Crossword) (x y a b : Int) (v : Nat) :
    isValidPosition (setV c x y v) a b = isValidPosition c a b := by
  unfold isValidPosition
  rw [setV_width, setV_height]

theorem getH_setCellB (c : Crossword) (x y a b : Int) (ch : Char) :
    getH (setCellB c x y ch) a b = getH c a b := by
  unfold getH
  rw [setCellB_hWords]

theorem getV_setCellB (c : Crossword) (x y a b : Int) (ch : Char) :
    getV (setCellB c x y ch) a b = getV c a b := by
  unfold getV
  rw [setCellB_vWords]

theorem getH_setV (c : Crossword) (x y a b : Int) (v : Nat) :
    getH (setV c x y v) a b = getH c a b := by
  unfold getH
  rw [setV_hWords]

theorem getV_setH (c : Crossword) (x y a b : Int) (v : Nat) :
    getV (setH c x y v) a b = getV c a b := by
  unfold getV
  rw [setH_vWords]

theorem getCellB_setH (c : Crossword) (x y a b : Int) (v : Nat) :
    getCellB (setH c x y v) a b = getCellB c a b := by
  unfold getCellB
  rw [setH_board]

theorem getCellB_setV (c : Crossword) (x y a b : Int) (v : Nat) :
    getCellB (setV c x y v) a b = getCellB c a b := by
  unfold getCellB
  rw [setV_board]

/-! ## Fresh state -/

theorem getH_NewCrossword (w h : Nat) (x y : Int) :
    getH (NewCrossword w h) x y = 0 := by
  unfold getH NewCrossword
  split
  · rw [get2_replicate]; split <;> rfl
  · rfl

theorem getV_NewCrossword (w h : Nat) (x y : Int) :
    getV (NewCrossword w h) x y = 0 := by
  unfold getV NewCrossword
  split
  · rw [get2_replicate]; split <;> rfl
  · rfl

theorem getCellB_NewCrossword (w h : Nat) (x y : Int) :
    getCellB (NewCrossword w h) x y = ' ' := by
  unfold getCellB NewCrossword
  split
  · rw [get2_replicate]; split <;> rfl
  · rfl

/-! ## Shape invariant -/

/-- The board and the two occupancy maps have the declared `height × width`
shape, and the declared dimensions are non-negative.  Holds for
`NewCrossword` and is preserved by every operation. -/
structure Dims (c : Crossword) : Prop where
  wpos : 0 ≤ c.width
  hpos : 0 ≤ c.height
  bl : c.board.length = c.height.toNat
  hl : c.hWords.length = c.height.toNat
  vl : c.vWords.length = c.height.toNat
  br : ∀ i, i < c.height.toNat → (c.board.getD i []).length = c.width.toNat
  hr : ∀ i, i < c.height.toNat → (c.hWords.getD i []).length = c.width.toNat
  vr : ∀ i, i < c.height.toNat → (c.vWords.getD i []).length = c.width.toNat

theorem Dims_NewCrossword (w h : Nat) : Dims (NewCrossword w h) := by
  refine ⟨by simp [NewCrossword], by simp [NewCrossword], ?_, ?_, ?_, ?_, ?_, ?_⟩ <;>
    simp only [NewCrossword, List.length_replicate, Int.toNat_ofNat] <;>
    try intro i hi
  all_goals
    first
    | rfl
    | (rw [List.getD_eq_getElem _ _ (by simpa using hi)]; simp)

theorem Dims_setCellB (c : Crossword) (x y : Int) (ch : Char)
    (hD : Dims c) : Dims (setCellB c x y ch) := by
  unfold setCellB
  split
  · exact ⟨hD.wpos, hD.hpos, by rw [length_set2]; exact hD.bl, hD.hl, hD.vl,
      fun i hi => by rw [rowlen_set2]; exact hD.br i hi, hD.hr, hD.vr⟩
  · exact hD

theorem Dims_setH (c : Crossword) (x y : Int) (v : Nat)
    (hD : Dims c) : Dims (setH c x y v) := by
  unfold setH
  split
  · exact ⟨hD.wpos, hD.hpos, hD.bl, by rw [length_set2]; exact hD.hl, hD.vl,
      hD.br, fun i hi => by rw [rowlen_set2]; exact hD.hr i hi, hD.vr⟩
  · exact hD

theorem Dims_setV (c : Crossword) (x y : Int) (v : Nat)
    (hD : Dims c) : Dims (setV c x y v) := by
  unfold setV
  split
  · exact ⟨hD.wpos, hD.hpos, hD.bl, hD.hl, by rw [length_set2]; exact hD.vl,
      hD.br, hD.hr, fun i hi => by rw [rowlen_set2]; exact hD.vr i hi⟩
  · exact hD

/-- A valid position has non-negative coordinates inside the declared
bounds. -/
theorem valid_range (c : Crossword) (x y : Int)
    (h : isValidPosition c x y = true) :
    (0 ≤ x ∧ 0 ≤ y) ∧
    x.toNat < c.height.toNat ∧ y.toNat < c.width.toNat := by
  unfold isValidPosition at h
  simp only [Bool.and_eq_true, decide_eq_true_eq] at h
  exact ⟨⟨h.1.1.1, h.1.2⟩, by omega, by omega⟩

/-! ## Span infrastructure -/

/-- The row coordinate of the next cell along the axis. -/
def advX (dir : Direction) (x : Int) : Int :=
  match dir with
  | .horizontal => x
  | .vertical => x + 1

/-- The column coordinate of the next cell along the axis. -/
def advY (dir : Direction) (y : Int) : Int :=
  match dir with
  | .horizontal => y + 1
  | .vertical => y

/-- Write the orientation's own occupancy entry (the loop body of
`putWord` picks `hWords` or `vWords` by orientation). -/
def setOwn (dir : Direction) (c : Crossword) (x y : Int) (v : Nat) :
    Crossword :=
  match dir with
  | .horizontal => setH c x y v
  | .vertical => setV c x y v

/-- `(a, b)` is one of the `n` cells of the span starting at `(x, y)`. -/
def InSpan (dir : Direction) (x y : Int) (n : Nat) (a b : Int) : Prop :=
  ∃ i, i < n ∧ a = spanX dir x i ∧ b = spanY dir y i

theorem spanX_zero (dir : Direction) (x : Int) : spanX dir x 0 = x := by
  cases dir <;> simp [spanX]

theorem spanY_zero (dir : Direction) (y : Int) : spanY dir y 0 = y := by
  cases dir <;> simp [spanY]

theorem spanX_adv (dir : Direction) (x : Int) (i : Nat) :
    spanX dir (advX dir x) i = spanX dir x (i + 1) := by
  cases dir <;> simp [spanX, advX] <;> omega

theorem spanY_adv (dir : Direction) (y : Int) (i : Nat) :
    spanY dir (advY dir y) i = spanY dir y (i + 1) := by
  cases dir <;> simp [spanY, advY] <;> omega

theorem inSpan_zero (dir : Direction) (x y a b : Int) :
    ¬ InSpan dir x y 0 a b := by
  rintro ⟨i, hi, _⟩
  omega

theorem inSpan_succ_iff (dir : Direction) (x y a b : Int) (n : Nat) :
    InSpan dir x y (n+1) a b ↔
      (a = x ∧ b = y) ∨ InSpan dir (advX dir x) (advY dir y) n a b := by
  constructor
  · rintro ⟨i, hi, ha, hb⟩
    cases i with
    | zero =>
      left
      rw [spanX_zero] at ha
      rw [spanY_zero] at hb
      exact ⟨ha, hb⟩
    | succ i =>
      right
      exact ⟨i, by omega, by rw [spanX_adv]; exact ha,
        by rw [spanY_adv]; exact hb⟩
  · rintro (⟨ha, hb⟩ | ⟨i, hi, ha, hb⟩)
    · exact ⟨0, by omega, by rw [spanX_zero]; exact ha,
        by rw [spanY_zero]; exact hb⟩
    · exact ⟨i + 1, by omega, by rw [← spanX_adv]; exact ha,
        by rw [← spanY_adv]; exact hb⟩

/-- The head cell of a span never reappears in its tail. -/
theorem head_not_in_tail (dir : Direction) (x y : Int) (n : Nat) :
    ¬ InSpan dir (advX dir x) (advY dir y) n x y := by
  rintro ⟨i, hi, ha, hb⟩
  cases dir <;> simp [spanX, spanY, advX, advY] at ha hb <;> omega

/-! ## Pointwise lemmas about `ownMap` / `oppMap` -/

theorem ownMap_setOwn_zero (dir : Direction) (c : Crossword) (x y : Int) :
    ownMap dir (setOwn dir c x y 0) x y = 0 := by
  cases dir
  · exact getH_setH_zero c x y
  · exact getV_setV_zero c x y

theorem ownMap_setOwn_ne (dir : Direction) (c : Crossword)
    (x y a b : Int) (v : Nat) (h : ¬(a = x ∧ b = y)) :
    ownMap dir (setOwn dir c x y v) a b = ownMap dir c a b := by
  cases dir
  · exact getH_setH_ne c x y a b v h
  · exact getV_setV_ne c x y a b v h

theorem ownMap_setOwn_self_of (dir : Direction) (c : Crossword)
    (x y : Int) (v : Nat) (hD : Dims c)
    (hval : isValidPosition c x y = true) :
    ownMap dir (setOwn dir c x y v) x y = v := by
  obtain ⟨⟨hx0, hy0⟩, hx, hy⟩ := valid_range c x y hval
  cases dir
  · exact getH_setH_self_of c x y v ⟨hx0, hy0⟩ (by rw [hD.hl]; exact hx)
      (by rw [hD.hr _ hx]; exact hy)
  · exact getV_setV_self_of c x y v ⟨hx0, hy0⟩ (by rw [hD.vl]; exact hx)
      (by rw [hD.vr _ hx]; exact hy)

theorem oppMap_setOwn (dir : Direction) (c : Crossword) (x y a b : Int)
    (v : Nat) : oppMap dir (setOwn dir c x y v) a b = oppMap dir c a b := by
  cases dir
  · exact getV_setH c x y a b v
  · exact getH_setV c x y a b v

theorem ownMap_setCellB (dir : Direction) (c : Crossword) (x y a b : Int)
    (ch : Char) : ownMap dir (setCellB c x y ch) a b = ownMap dir c a b := by
  cases dir
  · exact getH_setCellB c x y a b ch
  · exact getV_setCellB c x y a b ch

theorem oppMap_setCellB (dir : Direction) (c : Crossword) (x y a b : Int)
    (ch : Char) : oppMap dir (setCellB c x y ch) a b = oppMap dir c a b := by
  cases dir
  · exact getV_setCellB c x y a b ch
  · exact getH_setCellB c x y a b ch

theorem getCellB_setOwn (dir : Direction) (c : Crossword) (x y a b : Int)
    (v : Nat) : getCellB (setOwn dir c x y v) a b = getCellB c a b := by
  cases dir
  · exact getCellB_setH c x y a b v
  · exact getCellB_setV c x y a b v

theorem isValid_setOwn (dir : Direction) (c : Crossword) (x y a b : Int)
    (v : Nat) :
    isValidPosition (setOwn dir c x y v) a b = isValidPosition c a b := by
  cases dir
  · exact isValid_setH c x y a b v
  · exact isValid_setV c x y a b v

theorem Dims_setOwn (dir : Direction) (c : Crossword) (x y : Int) (v : Nat)
    (hD : Dims c) : Dims (setOwn dir c x y v) := by
  cases dir
  · exact Dims_setH c x y v hD
  · exact Dims_setV c x y v hD

theorem getCellB_setCellB_self_valid (c : Crossword) (x y : Int) (ch : Char)
    (hD : Dims c) (hval : isValidPosition c x y = true) :
    getCellB (setCellB c x y ch) x y = ch := by
  obtain ⟨⟨hx0, hy0⟩, hx, hy⟩ := valid_range c x y hval
  exact getCellB_setCellB_self_of c x y ch ⟨hx0, hy0⟩
    (by rw [hD.bl]; exact hx) (by rw [hD.br _ hx]; exact hy)

theorem setCellB_hCount (c : Crossword) (x y : Int) (ch : Char) :
    (setCellB c x y ch).hCount = c.hCount := by
  unfold setCellB; split <;> rfl

theorem setCellB_vCount (c : Crossword) (x y : Int) (ch : Char) :
    (setCellB c x y ch).vCount = c.vCount := by
  unfold setCellB; split <;> rfl

theorem setH_hCount (c : Crossword) (x y : Int) (v : Nat) :
    (setH c x y v).hCount = c.hCount := by
  unfold setH; split <;> rfl

theorem setH_vCount (c : Crossword) (x y : Int) (v : Nat) :
    (setH c x y v).vCount = c.vCount := by
  unfold setH; split <;> rfl

theorem setV_hCount (c : Crossword) (x y : Int) (v : Nat) :
    (setV c x y v).hCount = c.hCount := by
  unfold setV; split <;> rfl

theorem setV_vCount (c : Crossword) (x y : Int) (v : Nat) :
    (setV c x y v).vCount = c.vCount := by
  unfold setV; split <;> rfl

theorem setOwn_sides (dir : Direction) (c : Crossword) (x y : Int)
    (v : Nat) :
    (setOwn dir c x y v).usedWords = c.usedWords ∧
    (setOwn dir c x y v).placements = c.placements ∧
    (setOwn dir c x y v).width = c.width ∧
    (setOwn dir c x y v).height = c.height ∧
    (setOwn dir c x y v).hCount = c.hCount ∧
    (setOwn dir c x y v).vCount = c.vCount := by
  cases dir
  · exact ⟨setH_usedWords .., setH_placements .., setH_width ..,
      setH_height .., setH_hCount .., setH_vCount ..⟩
  · exact ⟨setV_usedWords .., setV_placements .., setV_width ..,
      setV_height .., setV_hCount .., setV_vCount ..⟩

/-! ## Characterization of `placeCells` -/

theorem placeCells_cons (v : Nat) (ch : Char) (rest : List Char)
    (x y : Int) (dir : Direction) (c : Crossword) :
    placeCells v (ch :: rest) x y dir c =
      placeCells v rest (advX dir x) (advY dir y) dir
        (setOwn dir (setCellB c x y ch) x y v) := by
  cases dir <;> rfl

theorem placeCells_sides (v : Nat) (dir : Direction) :
    ∀ (w : List Char) (x y : Int) (c : Crossword),
      (placeCells v w x y dir c).usedWords = c.usedWords ∧
      (placeCells v w x y dir c).placements = c.placements ∧
      (placeCells v w x y dir c).width = c.width ∧
      (placeCells v w x y dir c).height = c.height ∧
      (placeCells v w x y dir c).hCount = c.hCount ∧
      (placeCells v w x y dir c).vCount = c.vCount
  | [], _, _, _ => ⟨rfl, rfl, rfl, rfl, rfl, rfl⟩
  | ch :: rest, x, y, c => by
    rw [placeCells_cons]
    obtain ⟨i1, i2, i3, i4, i5, i6⟩ :=
      placeCells_sides v dir rest (advX dir x) (advY dir y)
        (setOwn dir (setCellB c x y ch) x y v)
    obtain ⟨s1, s2, s3, s4, s5, s6⟩ :=
      setOwn_sides dir (setCellB c x y ch) x y v
    refine ⟨?_, ?_, ?_, ?_, ?_, ?_⟩
    · rw [i1, s1, setCellB_usedWords]
    · rw [i2, s2, setCellB_placements]
    · rw [i3, s3, setCellB_width]
    · rw [i4, s4, setCellB_height]
    · rw [i5, s5, setCellB_hCount]
    · rw [i6, s6, setCellB_vCount]

theorem isValid_placeCells (v : Nat) (dir : Direction) (w : List Char)
    (x y : Int) (c : Crossword) (a b : Int) :
    isValidPosition (placeCells v w x y dir c) a b =
      isValidPosition c a b := by
  obtain ⟨-, -, h3, h4, -, -⟩ := placeCells_sides v dir w x y c
  unfold isValidPosition
  rw [h3, h4]

theorem Dims_placeCells (v : Nat) (dir : Direction) :
    ∀ (w : List Char) (x y : Int) (c : Crossword), Dims c →
      Dims (placeCells v w x y dir c)
  | [], _, _, _, hD => hD
  | ch :: rest, x, y, c, hD => by
    rw [placeCells_cons]
    exact Dims_placeCells v dir rest _ _ _
      (Dims_setOwn dir _ x y v (Dims_setCellB c x y ch hD))

theorem oppMap_placeCells (v : Nat) (dir : Direction) :
    ∀ (w : List Char) (x y : Int) (c : Crossword) (a b : Int),
      oppMap dir (placeCells v w x y dir c) a b = oppMap dir c a b
  | [], _, _, _, _, _ => rfl
  | ch :: rest, x, y, c, a, b => by
    rw [placeCells_cons,
      oppMap_placeCells v dir rest (advX dir x) (advY dir y) _ a b,
      oppMap_setOwn, oppMap_setCellB]

theorem ownMap_placeCells_out (v : Nat) (dir : Direction) :
    ∀ (w : List Char) (x y : Int) (c : Crossword) (a b : Int),
      ¬ InSpan dir x y w.length a b →
      ownMap dir (placeCells v w x y dir c) a b = ownMap dir c a b
  | [], _, _, _, _, _, _ => rfl
  | ch :: rest, x, y, c, a, b, hout => by
    rw [placeCells_cons]
    have hhead : ¬(a = x ∧ b = y) := fun hh =>
      hout ((inSpan_succ_iff dir x y a b rest.length).mpr (.inl hh))
    have htail : ¬ InSpan dir (advX dir x) (advY dir y) rest.length a b :=
      fun ht =>
        hout ((inSpan_succ_iff dir x y a b rest.length).mpr (.inr ht))
    rw [ownMap_placeCells_out v dir rest _ _ _ a b htail,
      ownMap_setOwn_ne dir _ x y a b v hhead, ownMap_setCellB]

theorem ownMap_placeCells_in (v : Nat) (dir : Direction) :
    ∀ (w : List Char) (x y : Int) (c : Crossword) (a b : Int),
      Dims c →
      (∀ i, i < w.length →
        isValidPosition c (spanX dir x i) (spanY dir y i) = true) →
      InSpan dir x y w.length a b →
      ownMap dir (placeCells v w x y dir c) a b = v
  | [], x, y, _, a, b, _, _, hin => absurd hin (inSpan_zero dir x y a b)
  | ch :: rest, x, y, c, a, b, hD, hval, hin => by
    rw [placeCells_cons]
    rcases (inSpan_succ_iff dir x y a b rest.length).mp hin with
      ⟨ha, hb⟩ | htail
    · subst ha
      subst hb
      rw [ownMap_placeCells_out v dir rest _ _ _ a b
        (head_not_in_tail dir a b rest.length)]
      refine ownMap_setOwn_self_of dir _ a b v
        (Dims_setCellB c a b ch hD) ?_
      rw [isValid_setCellB]
      have h0 := hval 0 (by simp)
      rwa [spanX_zero, spanY_zero] at h0
    · refine ownMap_placeCells_in v dir rest _ _ _ a b
        (Dims_setOwn dir _ x y v (Dims_setCellB c x y ch hD)) ?_ htail
      intro i hi
      rw [isValid_setOwn, isValid_setCellB, spanX_adv, spanY_adv]
      exact hval (i + 1) (by simp only [List.length_cons]; omega)

theorem getCellB_placeCells_out (v : Nat) (dir : Direction) :
    ∀ (w : List Char) (x y : Int) (c : Crossword) (a b : Int),
      ¬ InSpan dir x y w.length a b →
      getCellB (placeCells v w x y dir c) a b = getCellB c a b
  | [], _, _, _, _, _, _ => rfl
  | ch :: rest, x, y, c, a, b, hout => by
    rw [placeCells_cons]
    have hhead : ¬(a = x ∧ b = y) := fun hh =>
      hout ((inSpan_succ_iff dir x y a b rest.length).mpr (.inl hh))
    have htail : ¬ InSpan dir (advX dir x) (advY dir y) rest.length a b :=
      fun ht =>
        hout ((inSpan_succ_iff dir x y a b rest.length).mpr (.inr ht))
    rw [getCellB_placeCells_out v dir rest _ _ _ a b htail,
      getCellB_setOwn, getCellB_setCellB_ne c x y a b ch hhead]

theorem getCellB_placeCells_in (v : Nat) (dir : Direction) :
    ∀ (w : List Char) (x y : Int) (c : Crossword) (i : Nat),
      Dims c →
      (∀ j, j < w.length →
        isValidPosition c (spanX dir x j) (spanY dir y j) = true) →
      i < w.length →
      getCellB (placeCells v w x y dir c) (spanX dir x i) (spanY dir y i) =
        w.getD i ' '
  | [], _, _, _, i, _, _, hi => absurd hi (by simp)
  | ch :: rest, x, y, c, 0, hD, hval, _ => by
    rw [placeCells_cons, spanX_zero, spanY_zero]
    rw [getCellB_placeCells_out v dir rest _ _ _ x y
      (head_not_in_tail dir x y rest.length)]
    rw [getCellB_setOwn]
    refine getCellB_setCellB_self_valid c x y ch hD ?_
    have h0 := hval 0 (by simp)
    rwa [spanX_zero, spanY_zero] at h0
  | ch :: rest, x, y, c, i+1, hD, hval, hi => by
    rw [placeCells_cons, ← spanX_adv, ← spanY_adv]
    have := getCellB_placeCells_in v dir rest (advX dir x) (advY dir y)
      (setOwn dir (setCellB c x y ch) x y v) i
      (Dims_setOwn dir _ x y v (Dims_setCellB c x y ch hD))
      (by
        intro j hj
        rw [isValid_setOwn, isValid_setCellB, spanX_adv, spanY_adv]
        exact hval (j + 1) (by simp only [List.length_cons]; omega))
      (by simpa using hi)
    rw [this]
    rfl

/-! ## Characterization of `clearCells` -/

/-- One iteration of the clear loop of `removeWord` at cell `(x, y)`. -/
def clearStep (dir : Direction) (c : Crossword) (x y : Int) : Crossword :=
  match dir with
  | .horizontal =>
    let c1 := setH c x y 0
    if getV c1 x y = 0 then setCellB c1 x y ' ' else c1
  | .vertical =>
    let c1 := setV c x y 0
    if getH c1 x y = 0 then setCellB c1 x y ' ' else c1

theorem clearCells_succ (n : Nat) (x y : Int) (dir : Direction)
    (c : Crossword) :
    clearCells (n+1) x y dir c =
      clearCells n (advX dir x) (advY dir y) dir (clearStep dir c x y) := by
  cases dir <;> rfl

theorem clearStep_h (c : Crossword) (x y : Int) :
    clearStep .horizontal c x y =
      if getV (setH c x y 0) x y = 0 then setCellB (setH c x y 0) x y ' '
      else setH c x y 0 := rfl

theorem clearStep_v (c : Crossword) (x y : Int) :
    clearStep .vertical c x y =
      if getH (setV c x y 0) x y = 0 then setCellB (setV c x y 0) x y ' '
      else setV c x y 0 := rfl

theorem ownMap_clearStep_self (dir : Direction) (c : Crossword)
    (x y : Int) : ownMap dir (clearStep dir c x y) x y = 0 := by
  cases dir
  · rw [show ∀ cc, ownMap Direction.horizontal cc = getH cc from fun _ => rfl,
      clearStep_h]
    split
    · rw [getH_setCellB]
      exact getH_setH_zero c x y
    · exact getH_setH_zero c x y
  · rw [show ∀ cc, ownMap Direction.vertical cc = getV cc from fun _ => rfl,
      clearStep_v]
    split
    · rw [getV_setCellB]
      exact getV_setV_zero c x y
    · exact getV_setV_zero c x y

theorem ownMap_clearStep_ne (dir : Direction) (c : Crossword)
    (x y a b : Int) (h : ¬(a = x ∧ b = y)) :
    ownMap dir (clearStep dir c x y) a b = ownMap dir c a b := by
  cases dir
  · rw [show ∀ cc, ownMap Direction.horizontal cc = getH cc from fun _ => rfl,
      clearStep_h]
    split
    · rw [getH_setCellB]
      exact getH_setH_ne c x y a b 0 h
    · exact getH_setH_ne c x y a b 0 h
  · rw [show ∀ cc, ownMap Direction.vertical cc = getV cc from fun _ => rfl,
      clearStep_v]
    split
    · rw [getV_setCellB]
      exact getV_setV_ne c x y a b 0 h
    · exact getV_setV_ne c x y a b 0 h

theorem oppMap_clearStep (dir : Direction) (c : Crossword)
    (x y a b : Int) :
    oppMap dir (clearStep dir c x y) a b = oppMap dir c a b := by
  cases dir
  · rw [show ∀ cc, oppMap Direction.horizontal cc = getV cc from fun _ => rfl,
      clearStep_h]
    split
    · rw [getV_setCellB]
      exact getV_setH c x y a b 0
    · exact getV_setH c x y a b 0
  · rw [show ∀ cc, oppMap Direction.vertical cc = getH cc from fun _ => rfl,
      clearStep_v]
    split
    · rw [getH_setCellB]
      exact getH_setV c x y a b 0
    · exact getH_setV c x y a b 0

theorem getCellB_clearStep_self (dir : Direction) (c : Crossword)
    (x y : Int) :
    getCellB (clearStep dir c x y) x y =
      if oppMap dir c x y = 0 then ' ' else getCellB c x y := by
  cases dir
  · rw [clearStep_h,
      show oppMap Direction.horizontal c x y = getV c x y from rfl]
    have hv : getV (setH c x y 0) x y = getV c x y := getV_setH ..
    rw [hv]
    split
    · exact getCellB_setCellB_blank _ x y
    · exact getCellB_setH c x y x y 0
  · rw [clearStep_v,
      show oppMap Direction.vertical c x y = getH c x y from rfl]
    have hv : getH (setV c x y 0) x y = getH c x y := getH_setV ..
    rw [hv]
    split
    · exact getCellB_setCellB_blank _ x y
    · exact getCellB_setV c x y x y 0

theorem getCellB_clearStep_ne (dir : Direction) (c : Crossword)
    (x y a b : Int) (h : ¬(a = x ∧ b = y)) :
    getCellB (clearStep dir c x y) a b = getCellB c a b := by
  cases dir
  · rw [clearStep_h]
    split
    · rw [getCellB_setCellB_ne _ x y a b ' ' h]
      exact getCellB_setH c x y a b 0
    · exact getCellB_setH c x y a b 0
  · rw [clearStep_v]
    split
    · rw [getCellB_setCellB_ne _ x y a b ' ' h]
      exact getCellB_setV c x y a b 0
    · exact getCellB_setV c x y a b 0

theorem clearStep_sides (dir : Direction) (c : Crossword) (x y : Int) :
    (clearStep dir c x y).usedWords = c.usedWords ∧
    (clearStep dir c x y).placements = c.placements ∧
    (clearStep dir c x y).width = c.width ∧
    (clearStep dir c x y).height = c.height ∧
    (clearStep dir c x y).hCount = c.hCount ∧
    (clearStep dir c x y).vCount = c.vCount := by
  cases dir
  · rw [clearStep_h]
    split <;>
      exact ⟨by simp [setCellB_usedWords, setH_usedWords],
        by simp [setCellB_placements, setH_placements],
        by simp [setCellB_width, setH_width],
        by simp [setCellB_height, setH_height],
        by simp [setCellB_hCount, setH_hCount],
        by simp [setCellB_vCount, setH_vCount]⟩
  · rw [clearStep_v]
    split <;>
      exact ⟨by simp [setCellB_usedWords, setV_usedWords],
        by simp [setCellB_placements, setV_placements],
        by simp [setCellB_width, setV_width],
        by simp [setCellB_height, setV_height],
        by simp [setCellB_hCount, setV_hCount],
        by simp [setCellB_vCount, setV_vCount]⟩

theorem Dims_clearStep (dir : Direction) (c : Crossword) (x y : Int)
    (hD : Dims c) : Dims (clearStep dir c x y) := by
  cases dir
  · rw [clearStep_h]
    split
    · exact Dims_setCellB _ x y ' ' (Dims_setH c x y 0 hD)
    · exact Dims_setH c x y 0 hD
  · rw [clearStep_v]
    split
    · exact Dims_setCellB _ x y ' ' (Dims_setV c x y 0 hD)
    · exact Dims_setV c x y 0 hD

theorem isValid_clearStep (dir : Direction) (c : Crossword)
    (x y a b : Int) :
    isValidPosition (clearStep dir c x y) a b = isValidPosition c a b := by
  obtain ⟨-, -, h3, h4, -, -⟩ := clearStep_sides dir c x y
  unfold isValidPosition
  rw [h3, h4]

theorem clearCells_sides (dir : Direction) :
    ∀ (n : Nat) (x y : Int) (c : Crossword),
      (clearCells n x y dir c).usedWords = c.usedWords ∧
      (clearCells n x y dir c).placements = c.placements ∧
      (clearCells n x y dir c).width = c.width ∧
      (clearCells n x y dir c).height = c.height ∧
      (clearCells n x y dir c).hCount = c.hCount ∧
      (clearCells n x y dir c).vCount = c.vCount
  | 0, _, _, _ => by cases dir <;> exact ⟨rfl, rfl, rfl, rfl, rfl, rfl⟩
  | n+1, x, y, c => by
    rw [clearCells_succ]
    obtain ⟨i1, i2, i3, i4, i5, i6⟩ :=
      clearCells_sides dir n (advX dir x) (advY dir y) (clearStep dir c x y)
    obtain ⟨s1, s2, s3, s4, s5, s6⟩ := clearStep_sides dir c x y
    exact ⟨i1.trans s1, i2.trans s2, i3.trans s3, i4.trans s4,
      i5.trans s5, i6.trans s6⟩

theorem Dims_clearCells (dir : Direction) :
    ∀ (n : Nat) (x y : Int) (c : Crossword), Dims c →
      Dims (clearCells n x y dir c)
  | 0, _, _, _, hD => by cases dir <;> exact hD
  | n+1, x, y, c, hD => by
    rw [clearCells_succ]
    exact Dims_clearCells dir n _ _ _ (Dims_clearStep dir c x y hD)

theorem oppMap_clearCells (dir : Direction) :
    ∀ (n : Nat) (x y : Int) (c : Crossword) (a b : Int),
      oppMap dir (clearCells n x y dir c) a b = oppMap dir c a b
  | 0, _, _, _, _, _ => by cases dir <;> rfl
  | n+1, x, y, c, a, b => by
    rw [clearCells_succ,
      oppMap_clearCells dir n (advX dir x) (advY dir y) _ a b,
      oppMap_clearStep]

theorem ownMap_clearCells_out (dir : Direction) :
    ∀ (n : Nat) (x y : Int) (c : Crossword) (a b : Int),
      ¬ InSpan dir x y n a b →
      ownMap dir (clearCells n x y dir c) a b = ownMap dir c a b
  | 0, _, _, _, _, _, _ => by cases dir <;> rfl
  | n+1, x, y, c, a, b, hout => by
    rw [clearCells_succ]
    have hhead : ¬(a = x ∧ b = y) := fun hh =>
      hout ((inSpan_succ_iff dir x y a b n).mpr (.inl hh))
    have htail : ¬ InSpan dir (advX dir x) (advY dir y) n a b := fun ht =>
      hout ((inSpan_succ_iff dir x y a b n).mpr (.inr ht))
    rw [ownMap_clearCells_out dir n _ _ _ a b htail,
      ownMap_clearStep_ne dir c x y a b hhead]

theorem ownMap_clearCells_in (dir : Direction) :
    ∀ (n : Nat) (x y : Int) (c : Crossword) (a b : Int),
      InSpan dir x y n a b →
      ownMap dir (clearCells n x y dir c) a b = 0
  | 0, x, y, _, a, b, hin => absurd hin (inSpan_zero dir x y a b)
  | n+1, x, y, c, a, b, hin => by
    rw [clearCells_succ]
    rcases (inSpan_succ_iff dir x y a b n).mp hin with ⟨ha, hb⟩ | htail
    · subst ha
      subst hb
      rw [ownMap_clearCells_out dir n _ _ _ a b
        (head_not_in_tail dir a b n)]
      exact ownMap_clearStep_self dir c a b
    · exact ownMap_clearCells_in dir n _ _ _ a b htail

theorem getCellB_clearCells_out (dir : Direction) :
    ∀ (n : Nat) (x y : Int) (c : Crossword) (a b : Int),
      ¬ InSpan dir x y n a b →
      getCellB (clearCells n x y dir c) a b = getCellB c a b
  | 0, _, _, _, _, _, _ => by cases dir <;> rfl
  | n+1, x, y, c, a, b, hout => by
    rw [clearCells_succ]
    have hhead : ¬(a = x ∧ b = y) := fun hh =>
      hout ((inSpan_succ_iff dir x y a b n).mpr (.inl hh))
    have htail : ¬ InSpan dir (advX dir x) (advY dir y) n a b := fun ht =>
      hout ((inSpan_succ_iff dir x y a b n).mpr (.inr ht))
    rw [getCellB_clearCells_out dir n _ _ _ a b htail,
      getCellB_clearStep_ne dir c x y a b hhead]

/-- A later span cell never coincides with the span head. -/
theorem spanCell_succ_ne (dir : Direction) (x y : Int) (i : Nat) :
    ¬(spanX dir x (i+1) = x ∧ spanY dir y (i+1) = y) := by
  rintro ⟨ha, hb⟩
  exact head_not_in_tail dir x y (i+1)
    ⟨i, by omega, ((spanX_adv dir x i).trans ha).symm ▸ rfl,
      ((spanY_adv dir y i).trans hb).symm ▸ rfl⟩

theorem getCellB_clearCells_in (dir : Direction) :
    ∀ (n : Nat) (x y : Int) (c : Crossword) (i : Nat),
      i < n →
      getCellB (clearCells n x y dir c) (spanX dir x i) (spanY dir y i) =
        if oppMap dir c (spanX dir x i) (spanY dir y i) = 0 then ' '
        else getCellB c (spanX dir x i) (spanY dir y i)
  | 0, _, _, _, i, hi => absurd hi (by omega)
  | n+1, x, y, c, 0, _ => by
    rw [clearCells_succ, spanX_zero, spanY_zero]
    rw [getCellB_clearCells_out dir n _ _ _ x y
      (head_not_in_tail dir x y n)]
    exact getCellB_clearStep_self dir c x y
  | n+1, x, y, c, i+1, hi => by
    rw [clearCells_succ, ← spanX_adv, ← spanY_adv]
    rw [getCellB_clearCells_in dir n (advX dir x) (advY dir y)
      (clearStep dir c x y) i (by omega)]
    rw [spanX_adv, spanY_adv, oppMap_clearStep,
      getCellB_clearStep_ne dir c x y _ _ (spanCell_succ_ne dir x y i)]

/-! ## Decomposition of `putWord` and `removeWord` -/

/-- The occupancy value stamped by a commit: the orientation's counter
after its increment. -/
def putValue (dir : Direction) (c : Crossword) : Nat :=
  match dir with
  | .horizontal => c.hCount + 1
  | .vertical => c.vCount + 1

/-- The metadata updates of a (non-duplicate) commit: bump the
orientation's counter, mark the word used, append the placement record. -/
def commitMeta (c : Crossword) (w : List Char) (x y : Int)
    (dir : Direction) : Crossword :=
  let c1 := match dir with
    | .horizontal => { c with hCount := c.hCount + 1 }
    | .vertical => { c with vCount := c.vCount + 1 }
  { c1 with
    usedWords := w :: c1.usedWords
    placements := c1.placements ++ [⟨x, y, dir, w.length, w⟩] }

/-- The two boundary block-marker writes of `putWord`. -/
def putBlocks (dir : Direction) (x y : Int) (n : Nat) (c : Crossword) :
    Crossword :=
  match dir with
  | .horizontal =>
    let c4 := if isValidPosition c x (y-1) then setCellB c x (y-1) '*'
              else c
    if isValidPosition c4 x (y + n) then setCellB c4 x (y + n) '*' else c4
  | .vertical =>
    let c4 := if isValidPosition c (x-1) y then setCellB c (x-1) y '*'
              else c
    if isValidPosition c4 (x + n) y then setCellB c4 (x + n) y '*' else c4

theorem putWord_used (c : Crossword) (w : List Char) (x y : Int)
    (dir : Direction) (h : w ∈ c.usedWords) : putWord c w x y dir = c := by
  unfold putWord
  rw [if_pos h]

theorem putWord_not_used (c : Crossword) (w : List Char) (x y : Int)
    (dir : Direction) (h : w ∉ c.usedWords) :
    putWord c w x y dir =
      putBlocks dir x y w.length
        (placeCells (putValue dir c) w x y dir (commitMeta c w x y dir)) := by
  unfold putWord
  rw [if_neg h]
  cases dir <;> rfl

/-- The two boundary block-marker clears of `removeWord`. -/
def clearBlocks (dir : Direction) (x y : Int) (n : Nat) (c : Crossword) :
    Crossword :=
  match dir with
  | .horizontal =>
    let c2 := if isValidPosition c x (y-1) && !hasAdjacentWords c x (y-1)
              then setCellB c x (y-1) ' ' else c
    if isValidPosition c2 x (y + n) && !hasAdjacentWords c2 x (y + n)
    then setCellB c2 x (y + n) ' ' else c2
  | .vertical =>
    let c2 := if isValidPosition c (x-1) y && !hasAdjacentWords c (x-1) y
              then setCellB c (x-1) y ' ' else c
    if isValidPosition c2 (x + n) y && !hasAdjacentWords c2 (x + n) y
    then setCellB c2 (x + n) y ' ' else c2

theorem removeWord_eq (c : Crossword) (w : List Char) (x y : Int)
    (dir : Direction) :
    removeWord c w x y dir =
      clearBlocks dir x y w.length
        (clearCells w.length x y dir
          { c with usedWords := c.usedWords.filter (fun u => u != w) }) := by
  cases dir <;> rfl

/-! ### Lemmas about `commitMeta`, `putBlocks`, `clearBlocks` -/

theorem commitMeta_board (c : Crossword) (w : List Char) (x y : Int)
    (dir : Direction) : (commitMeta c w x y dir).board = c.board := by
  cases dir <;> rfl

theorem commitMeta_hWords (c : Crossword) (w : List Char) (x y : Int)
    (dir : Direction) : (commitMeta c w x y dir).hWords = c.hWords := by
  cases dir <;> rfl

theorem commitMeta_vWords (c : Crossword) (w : List Char) (x y : Int)
    (dir : Direction) : (commitMeta c w x y dir).vWords = c.vWords := by
  cases dir <;> rfl

theorem commitMeta_width (c : Crossword) (w : List Char) (x y : Int)
    (dir : Direction) : (commitMeta c w x y dir).width = c.width := by
  cases dir <;> rfl

theorem commitMeta_height (c : Crossword) (w : List Char) (x y : Int)
    (dir : Direction) : (commitMeta c w x y dir).height = c.height := by
  cases dir <;> rfl

theorem commitMeta_usedWords (c : Crossword) (w : List Char) (x y : Int)
    (dir : Direction) :
    (commitMeta c w x y dir).usedWords = w :: c.usedWords := by
  cases dir <;> rfl

theorem commitMeta_placements (c : Crossword) (w : List Char) (x y : Int)
    (dir : Direction) :
    (commitMeta c w x y dir).placements =
      c.placements ++ [⟨x, y, dir, w.length, w⟩] := by
  cases dir <;> rfl

theorem getH_commitMeta (c : Crossword) (w : List Char) (x y a b : Int)
    (dir : Direction) : getH (commitMeta c w x y dir) a b = getH c a b := by
  unfold getH
  rw [commitMeta_hWords]

theorem getV_commitMeta (c : Crossword) (w : List Char) (x y a b : Int)
    (dir : Direction) : getV (commitMeta c w x y dir) a b = getV c a b := by
  unfold getV
  rw [commitMeta_vWords]

theorem getCellB_commitMeta (c : Crossword) (w : List Char) (x y a b : Int)
    (dir : Direction) :
    getCellB (commitMeta c w x y dir) a b = getCellB c a b := by
  unfold getCellB
  rw [commitMeta_board]

theorem ownMap_commitMeta (d : Direction) (c : Crossword) (w : List Char)
    (x y a b : Int) (dir : Direction) :
    ownMap d (commitMeta c w x y dir) a b = ownMap d c a b := by
  cases d
  · exact getH_commitMeta ..
  · exact getV_commitMeta ..

theorem oppMap_commitMeta (d : Direction) (c : Crossword) (w : List Char)
    (x y a b : Int) (dir : Direction) :
    oppMap d (commitMeta c w x y dir) a b = oppMap d c a b := by
  cases d
  · exact getV_commitMeta ..
  · exact getH_commitMeta ..

theorem isValid_commitMeta (c : Crossword) (w : List Char) (x y a b : Int)
    (dir : Direction) :
    isValidPosition (commitMeta c w x y dir) a b = isValidPosition c a b := by
  unfold isValidPosition
  rw [commitMeta_width, commitMeta_height]

theorem Dims_commitMeta (c : Crossword) (w : List Char) (x y : Int)
    (dir : Direction) (hD : Dims c) : Dims (commitMeta c w x y dir) := by
  refine ⟨?_, ?_, ?_, ?_, ?_, ?_, ?_, ?_⟩
  · rw [commitMeta_width]; exact hD.wpos
  · rw [commitMeta_height]; exact hD.hpos
  · rw [commitMeta_board, commitMeta_height]; exact hD.bl
  · rw [commitMeta_hWords, commitMeta_height]; exact hD.hl
  · rw [commitMeta_vWords, commitMeta_height]; exact hD.vl
  · rw [commitMeta_board, commitMeta_height, commitMeta_width]; exact hD.br
  · rw [commitMeta_hWords, commitMeta_height, commitMeta_width]; exact hD.hr
  · rw [commitMeta_vWords, commitMeta_height, commitMeta_width]; exact hD.vr

/-- Row of the boundary cell before the span start. -/
def beforeX (dir : Direction) (x : Int) : Int :=
  match dir with
  | .horizontal => x
  | .vertical => x - 1

/-- Column of the boundary cell before the span start. -/
def beforeY (dir : Direction) (y : Int) : Int :=
  match dir with
  | .horizontal => y - 1
  | .vertical => y

/-- Row of the boundary cell after the span end. -/
def afterX (dir : Direction) (x : Int) (n : Nat) : Int :=
  match dir with
  | .horizontal => x
  | .vertical => x + n

/-- Column of the boundary cell after the span end. -/
def afterY (dir : Direction) (y : Int) (n : Nat) : Int :=
  match dir with
  | .horizontal => y + n
  | .vertical => y

theorem putBlocks_h (x y : Int) (n : Nat) (c : Crossword) :
    putBlocks .horizontal x y n c =
      if isValidPosition
           (if isValidPosition c x (y-1) then setCellB c x (y-1) '*' else c)
           x (y + n)
      then setCellB
           (if isValidPosition c x (y-1) then setCellB c x (y-1) '*' else c)
           x (y + n) '*'
      else
        (if isValidPosition c x (y-1) then setCellB c x (y-1) '*' else c) :=
  rfl

theorem putBlocks_v (x y : Int) (n : Nat) (c : Crossword) :
    putBlocks .vertical x y n c =
      if isValidPosition
           (if isValidPosition c (x-1) y then setCellB c (x-1) y '*' else c)
           (x + n) y
      then setCellB
           (if isValidPosition c (x-1) y then setCellB c (x-1) y '*' else c)
           (x + n) y '*'
      else
        (if isValidPosition c (x-1) y then setCellB c (x-1) y '*' else c) :=
  rfl

theorem putBlocks_hWords (dir : Direction) (x y : Int) (n : Nat)
    (c : Crossword) : (putBlocks dir x y n c).hWords = c.hWords := by
  cases dir
  · rw [putBlocks_h]; split <;> split <;> simp [setCellB_hWords]
  · rw [putBlocks_v]; split <;> split <;> simp [setCellB_hWords]

theorem putBlocks_vWords (dir : Direction) (x y : Int) (n : Nat)
    (c : Crossword) : (putBlocks dir x y n c).vWords = c.vWords := by
  cases dir
  · rw [putBlocks_h]; split <;> split <;> simp [setCellB_vWords]
  · rw [putBlocks_v]; split <;> split <;> simp [setCellB_vWords]

theorem putBlocks_usedWords (dir : Direction) (x y : Int) (n : Nat)
    (c : Crossword) : (putBlocks dir x y n c).usedWords = c.usedWords := by
  cases dir
  · rw [putBlocks_h]; split <;> split <;> simp [setCellB_usedWords]
  · rw [putBlocks_v]; split <;> split <;> simp [setCellB_usedWords]

theorem putBlocks_placements (dir : Direction) (x y : Int) (n : Nat)
    (c : Crossword) : (putBlocks dir x y n c).placements = c.placements := by
  cases dir
  · rw [putBlocks_h]; split <;> split <;> simp [setCellB_placements]
  · rw [putBlocks_v]; split <;> split <;> simp [setCellB_placements]

theorem putBlocks_width (dir : Direction) (x y : Int) (n : Nat)
    (c : Crossword) : (putBlocks dir x y n c).width = c.width := by
  cases dir
  · rw [putBlocks_h]; split <;> split <;> simp [setCellB_width]
  · rw [putBlocks_v]; split <;> split <;> simp [setCellB_width]

theorem putBlocks_height (dir : Direction) (x y : Int) (n : Nat)
    (c : Crossword) : (putBlocks dir x y n c).height = c.height := by
  cases dir
  · rw [putBlocks_h]; split <;> split <;> simp [setCellB_height]
  · rw [putBlocks_v]; split <;> split <;> simp [setCellB_height]

theorem putBlocks_hCount (dir : Direction) (x y : Int) (n : Nat)
    (c : Crossword) : (putBlocks dir x y n c).hCount = c.hCount := by
  cases dir
  · rw [putBlocks_h]; split <;> split <;> simp [setCellB_hCount]
  · rw [putBlocks_v]; split <;> split <;> simp [setCellB_hCount]

theorem putBlocks_vCount (dir : Direction) (x y : Int) (n : Nat)
    (c : Crossword) : (putBlocks dir x y n c).vCount = c.vCount := by
  cases dir
  · rw [putBlocks_h]; split <;> split <;> simp [setCellB_vCount]
  · rw [putBlocks_v]; split <;> split <;> simp [setCellB_vCount]

theorem getH_putBlocks (dir : Direction) (x y : Int) (n : Nat)
    (c : Crossword) (a b : Int) :
    getH (putBlocks dir x y n c) a b = getH c a b := by
  unfold getH
  rw [putBlocks_hWords]

theorem getV_putBlocks (dir : Direction) (x y : Int) (n : Nat)
    (c : Crossword) (a b : Int) :
    getV (putBlocks dir x y n c) a b = getV c a b := by
  unfold getV
  rw [putBlocks_vWords]

theorem ownMap_putBlocks (d : Direction) (dir : Direction) (x y : Int)
    (n : Nat) (c : Crossword) (a b : Int) :
    ownMap d (putBlocks dir x y n c) a b = ownMap d c a b := by
  cases d
  · exact getH_putBlocks ..
  · exact getV_putBlocks ..

theorem oppMap_putBlocks (d : Direction) (dir : Direction) (x y : Int)
    (n : Nat) (c : Crossword) (a b : Int) :
    oppMap d (putBlocks dir x y n c) a b = oppMap d c a b := by
  cases d
  · exact getV_putBlocks ..
  · exact getH_putBlocks ..

theorem Dims_putBlocks (dir : Direction) (x y : Int) (n : Nat)
    (c : Crossword) (hD : Dims c) : Dims (putBlocks dir x y n c) := by
  cases dir
  · rw [putBlocks_h]
    split <;> split <;>
      first
      | exact Dims_setCellB _ _ _ _ (Dims_setCellB _ _ _ _ hD)
      | exact Dims_setCellB _ _ _ _ hD
      | exact hD
  · rw [putBlocks_v]
    split <;> split <;>
      first
      | exact Dims_setCellB _ _ _ _ (Dims_setCellB _ _ _ _ hD)
      | exact Dims_setCellB _ _ _ _ hD
      | exact hD

theorem getCellB_putBlocks_out (dir : Direction) (x y : Int) (n : Nat)
    (c : Crossword) (a b : Int)
    (hb : ¬(a = beforeX dir x ∧ b = beforeY dir y))
    (ha : ¬(a = afterX dir x n ∧ b = afterY dir y n)) :
    getCellB (putBlocks dir x y n c) a b = getCellB c a b := by
  cases dir
  · have hbe : ¬(a = x ∧ b = y - 1) := by simpa [beforeX, beforeY] using hb
    have haf : ¬(a = x ∧ b = y + (n : Int)) := by
      simpa [afterX, afterY] using ha
    rw [putBlocks_h]
    split <;> split <;>
      first
      | rw [getCellB_setCellB_ne _ _ _ a b '*' haf,
          getCellB_setCellB_ne _ _ _ a b '*' hbe]
      | rw [getCellB_setCellB_ne _ _ _ a b '*' hbe]
      | rw [getCellB_setCellB_ne _ _ _ a b '*' haf]
      | rfl
  · have hbe : ¬(a = x - 1 ∧ b = y) := by simpa [beforeX, beforeY] using hb
    have haf : ¬(a = x + (n : Int) ∧ b = y) := by
      simpa [afterX, afterY] using ha
    rw [putBlocks_v]
    split <;> split <;>
      first
      | rw [getCellB_setCellB_ne _ _ _ a b '*' haf,
          getCellB_setCellB_ne _ _ _ a b '*' hbe]
      | rw [getCellB_setCellB_ne _ _ _ a b '*' hbe]
      | rw [getCellB_setCellB_ne _ _ _ a b '*' haf]
      | rfl

theorem clearBlocks_h (x y : Int) (n : Nat) (c : Crossword) :
    clearBlocks .horizontal x y n c =
      if isValidPosition
           (if isValidPosition c x (y-1) && !hasAdjacentWords c x (y-1)
            then setCellB c x (y-1) ' ' else c) x (y + n) &&
         !hasAdjacentWords
           (if isValidPosition c x (y-1) && !hasAdjacentWords c x (y-1)
            then setCellB c x (y-1) ' ' else c) x (y + n)
      then setCellB
           (if isValidPosition c x (y-1) && !hasAdjacentWords c x (y-1)
            then setCellB c x (y-1) ' ' else c) x (y + n) ' '
      else
        (if isValidPosition c x (y-1) && !hasAdjacentWords c x (y-1)
         then setCellB c x (y-1) ' ' else c) :=
  rfl

theorem clearBlocks_v (x y : Int) (n : Nat) (c : Crossword) :
    clearBlocks .vertical x y n c =
      if isValidPosition
           (if isValidPosition c (x-1) y && !hasAdjacentWords c (x-1) y
            then setCellB c (x-1) y ' ' else c) (x + n) y &&
         !hasAdjacentWords
           (if isValidPosition c (x-1) y && !hasAdjacentWords c (x-1) y
            then setCellB c (x-1) y ' ' else c) (x + n) y
      then setCellB
           (if isValidPosition c (x-1) y && !hasAdjacentWords c (x-1) y
            then setCellB c (x-1) y ' ' else c) (x + n) y ' '
      else
        (if isValidPosition c (x-1) y && !hasAdjacentWords c (x-1) y
         then setCellB c (x-1) y ' ' else c) :=
  rfl

theorem clearBlocks_hWords (dir : Direction) (x y : Int) (n : Nat)
    (c : Crossword) : (clearBlocks dir x y n c).hWords = c.hWords := by
  cases dir
  · rw [clearBlocks_h]; split <;> split <;> simp [setCellB_hWords]
  · rw [clearBlocks_v]; split <;> split <;> simp [setCellB_hWords]

theorem clearBlocks_vWords (dir : Direction) (x y : Int) (n : Nat)
    (c : Crossword) : (clearBlocks dir x y n c).vWords = c.vWords := by
  cases dir
  · rw [clearBlocks_h]; split <;> split <;> simp [setCellB_vWords]
  · rw [clearBlocks_v]; split <;> split <;> simp [setCellB_vWords]

theorem clearBlocks_usedWords (dir : Direction) (x y : Int) (n : Nat)
    (c : Crossword) : (clearBlocks dir x y n c).usedWords = c.usedWords := by
  cases dir
  · rw [clearBlocks_h]; split <;> split <;> simp [setCellB_usedWords]
  · rw [clearBlocks_v]; split <;> split <;> simp [setCellB_usedWords]

theorem clearBlocks_placements (dir : Direction) (x y : Int) (n : Nat)
    (c : Crossword) :
    (clearBlocks dir x y n c).placements = c.placements := by
  cases dir
  · rw [clearBlocks_h]; split <;> split <;> simp [setCellB_placements]
  · rw [clearBlocks_v]; split <;> split <;> simp [setCellB_placements]

theorem clearBlocks_width (dir : Direction) (x y : Int) (n : Nat)
    (c : Crossword) : (clearBlocks dir x y n c).width = c.width := by
  cases dir
  · rw [clearBlocks_h]; split <;> split <;> simp [setCellB_width]
  · rw [clearBlocks_v]; split <;> split <;> simp [setCellB_width]

theorem clearBlocks_height (dir : Direction) (x y : Int) (n : Nat)
    (c : Crossword) : (clearBlocks dir x y n c).height = c.height := by
  cases dir
  · rw [clearBlocks_h]; split <;> split <;> simp [setCellB_height]
  · rw [clearBlocks_v]; split <;> split <;> simp [setCellB_height]

theorem getH_clearBlocks (dir : Direction) (x y : Int) (n : Nat)
    (c : Crossword) (a b : Int) :
    getH (clearBlocks dir x y n c) a b = getH c a b := by
  unfold getH
  rw [clearBlocks_hWords]

theorem getV_clearBlocks (dir : Direction) (x y : Int) (n : Nat)
    (c : Crossword) (a b : Int) :
    getV (clearBlocks dir x y n c) a b = getV c a b := by
  unfold getV
  rw [clearBlocks_vWords]

theorem getCellB_clearBlocks_out (dir : Direction) (x y : Int) (n : Nat)
    (c : Crossword) (a b : Int)
    (hb : ¬(a = beforeX dir x ∧ b = beforeY dir y))
    (ha : ¬(a = afterX dir x n ∧ b = afterY dir y n)) :
    getCellB (clearBlocks dir x y n c) a b = getCellB c a b := by
  cases dir
  · have hbe : ¬(a = x ∧ b = y - 1) := by simpa [beforeX, beforeY] using hb
    have haf : ¬(a = x ∧ b = y + (n : Int)) := by
      simpa [afterX, afterY] using ha
    rw [clearBlocks_h]
    split <;> split <;>
      first
      | rw [getCellB_setCellB_ne _ _ _ a b ' ' haf,
          getCellB_setCellB_ne _ _ _ a b ' ' hbe]
      | rw [getCellB_setCellB_ne _ _ _ a b ' ' hbe]
      | rw [getCellB_setCellB_ne _ _ _ a b ' ' haf]
      | rfl
  · have hbe : ¬(a = x - 1 ∧ b = y) := by simpa [beforeX, beforeY] using hb
    have haf : ¬(a = x + (n : Int) ∧ b = y) := by
      simpa [afterX, afterY] using ha
    rw [clearBlocks_v]
    split <;> split <;>
      first
      | rw [getCellB_setCellB_ne _ _ _ a b ' ' haf,
          getCellB_setCellB_ne _ _ _ a b ' ' hbe]
      | rw [getCellB_setCellB_ne _ _ _ a b ' ' hbe]
      | rw [getCellB_setCellB_ne _ _ _ a b ' ' haf]
      | rfl

/-- No span cell coincides with either boundary cell. -/
theorem span_ne_boundary (dir : Direction) (x y : Int) (n i : Nat)
    (hi : i < n) :
    ¬(spanX dir x i = beforeX dir x ∧ spanY dir y i = beforeY dir y) ∧
    ¬(spanX dir x i = afterX dir x n ∧ spanY dir y i = afterY dir y n) := by
  cases dir <;>
    constructor <;>
    rintro ⟨h1, h2⟩ <;>
    simp [spanX, spanY, beforeX, beforeY, afterX, afterY] at h1 h2 <;>
    omega

/-! ### Composite pointwise lemmas for `putWord` -/

theorem putWord_usedWords_not (c : Crossword) (w : List Char) (x y : Int)
    (dir : Direction) (h : w ∉ c.usedWords) :
    (putWord c w x y dir).usedWords = w :: c.usedWords := by
  rw [putWord_not_used c w x y dir h, putBlocks_usedWords,
    (placeCells_sides _ _ _ _ _ _).1, commitMeta_usedWords]

theorem putWord_placements_not (c : Crossword) (w : List Char) (x y : Int)
    (dir : Direction) (h : w ∉ c.usedWords) :
    (putWord c w x y dir).placements =
      c.placements ++ [⟨x, y, dir, w.length, w⟩] := by
  rw [putWord_not_used c w x y dir h, putBlocks_placements,
    (placeCells_sides _ _ _ _ _ _).2.1, commitMeta_placements]

theorem putWord_width (c : Crossword) (w : List Char) (x y : Int)
    (dir : Direction) : (putWord c w x y dir).width = c.width := by
  by_cases h : w ∈ c.usedWords
  · rw [putWord_used c w x y dir h]
  · rw [putWord_not_used c w x y dir h, putBlocks_width,
      (placeCells_sides _ _ _ _ _ _).2.2.1, commitMeta_width]

theorem putWord_height (c : Crossword) (w : List Char) (x y : Int)
    (dir : Direction) : (putWord c w x y dir).height = c.height := by
  by_cases h : w ∈ c.usedWords
  · rw [putWord_used c w x y dir h]
  · rw [putWord_not_used c w x y dir h, putBlocks_height,
      (placeCells_sides _ _ _ _ _ _).2.2.2.1, commitMeta_height]

theorem isValid_putWord (c : Crossword) (w : List Char) (x y a b : Int)
    (dir : Direction) :
    isValidPosition (putWord c w x y dir) a b = isValidPosition c a b := by
  unfold isValidPosition
  rw [putWord_width, putWord_height]

theorem Dims_putWord (c : Crossword) (w : List Char) (x y : Int)
    (dir : Direction) (hD : Dims c) : Dims (putWord c w x y dir) := by
  by_cases h : w ∈ c.usedWords
  · rw [putWord_used c w x y dir h]; exact hD
  · rw [putWord_not_used c w x y dir h]
    exact Dims_putBlocks _ _ _ _ _
      (Dims_placeCells _ _ _ _ _ _ (Dims_commitMeta _ _ _ _ _ hD))

theorem ownMap_putWord_in (c : Crossword) (w : List Char) (x y : Int)
    (dir : Direction) (a b : Int) (h : w ∉ c.usedWords) (hD : Dims c)
    (hval : ∀ i, i < w.length →
      isValidPosition c (spanX dir x i) (spanY dir y i) = true)
    (hin : InSpan dir x y w.length a b) :
    ownMap dir (putWord c w x y dir) a b = putValue dir c := by
  rw [putWord_not_used c w x y dir h, ownMap_putBlocks]
  refine ownMap_placeCells_in _ _ _ _ _ _ _ _
    (Dims_commitMeta _ _ _ _ _ hD) ?_ hin
  intro i hi
  rw [isValid_commitMeta]
  exact hval i hi

theorem ownMap_putWord_out (c : Crossword) (w : List Char) (x y : Int)
    (dir : Direction) (a b : Int) (h : w ∉ c.usedWords)
    (hout : ¬ InSpan dir x y w.length a b) :
    ownMap dir (putWord c w x y dir) a b = ownMap dir c a b := by
  rw [putWord_not_used c w x y dir h, ownMap_putBlocks,
    ownMap_placeCells_out _ _ _ _ _ _ _ _ hout, ownMap_commitMeta]

theorem oppMap_putWord (c : Crossword) (w : List Char) (x y : Int)
    (dir : Direction) (a b : Int) (h : w ∉ c.usedWords) :
    oppMap dir (putWord c w x y dir) a b = oppMap dir c a b := by
  rw [putWord_not_used c w x y dir h, oppMap_putBlocks, oppMap_placeCells,
    oppMap_commitMeta]

theorem getCellB_putWord_span (c : Crossword) (w : List Char) (x y : Int)
    (dir : Direction) (i : Nat) (h : w ∉ c.usedWords) (hD : Dims c)
    (hval : ∀ j, j < w.length →
      isValidPosition c (spanX dir x j) (spanY dir y j) = true)
    (hi : i < w.length) :
    getCellB (putWord c w x y dir) (spanX dir x i) (spanY dir y i) =
      w.getD i ' ' := by
  rw [putWord_not_used c w x y dir h]
  obtain ⟨hnb, hna⟩ := span_ne_boundary dir x y w.length i hi
  rw [getCellB_putBlocks_out _ _ _ _ _ _ _ hnb hna]
  refine getCellB_placeCells_in _ _ _ _ _ _ _
    (Dims_commitMeta _ _ _ _ _ hD) ?_ hi
  intro j hj
  rw [isValid_commitMeta]
  exact hval j hj

theorem getCellB_putWord_out (c : Crossword) (w : List Char) (x y : Int)
    (dir : Direction) (a b : Int) (h : w ∉ c.usedWords)
    (hout : ¬ InSpan dir x y w.length a b)
    (hb : ¬(a = beforeX dir x ∧ b = beforeY dir y))
    (ha : ¬(a = afterX dir x w.length ∧ b = afterY dir y w.length)) :
    getCellB (putWord c w x y dir) a b = getCellB c a b := by
  rw [putWord_not_used c w x y dir h,
    getCellB_putBlocks_out _ _ _ _ _ _ _ hb ha,
    getCellB_placeCells_out _ _ _ _ _ _ _ _ hout, getCellB_commitMeta]

/-! ### Composite pointwise lemmas for `removeWord` -/

theorem removeWord_usedWords (c : Crossword) (w : List Char) (x y : Int)
    (dir : Direction) :
    (removeWord c w x y dir).usedWords =
      c.usedWords.filter (fun u => u != w) := by
  rw [removeWord_eq, clearBlocks_usedWords,
    (clearCells_sides _ _ _ _ _).1]

theorem removeWord_placements (c : Crossword) (w : List Char) (x y : Int)
    (dir : Direction) :
    (removeWord c w x y dir).placements = c.placements := by
  rw [removeWord_eq, clearBlocks_placements,
    (clearCells_sides _ _ _ _ _).2.1]

theorem removeWord_width (c : Crossword) (w : List Char) (x y : Int)
    (dir : Direction) : (removeWord c w x y dir).width = c.width := by
  rw [removeWord_eq, clearBlocks_width, (clearCells_sides _ _ _ _ _).2.2.1]

theorem removeWord_height (c : Crossword) (w : List Char) (x y : Int)
    (dir : Direction) : (removeWord c w x y dir).height = c.height := by
  rw [removeWord_eq, clearBlocks_height,
    (clearCells_sides _ _ _ _ _).2.2.2.1]

theorem Dims_clearBlocks (dir : Direction) (x y : Int) (n : Nat)
    (c : Crossword) (hD : Dims c) : Dims (clearBlocks dir x y n c) := by
  cases dir
  · rw [clearBlocks_h]
    split <;> split <;>
      first
      | exact Dims_setCellB _ _ _ _ (Dims_setCellB _ _ _ _ hD)
      | exact Dims_setCellB _ _ _ _ hD
      | exact hD
  · rw [clearBlocks_v]
    split <;> split <;>
      first
      | exact Dims_setCellB _ _ _ _ (Dims_setCellB _ _ _ _ hD)
      | exact Dims_setCellB _ _ _ _ hD
      | exact hD

theorem Dims_removeWord (c : Crossword) (w : List Char) (x y : Int)
    (dir : Direction) (hD : Dims c) : Dims (removeWord c w x y dir) := by
  rw [removeWord_eq]
  refine Dims_clearBlocks _ _ _ _ _ ?_
  exact Dims_clearCells _ _ _ _ _
    ⟨hD.wpos, hD.hpos, hD.bl, hD.hl, hD.vl, hD.br, hD.hr, hD.vr⟩

theorem ownMap_removeWord_in (c : Crossword) (w : List Char) (x y : Int)
    (dir : Direction) (a b : Int)
    (hin : InSpan dir x y w.length a b) :
    ownMap dir (removeWord c w x y dir) a b = 0 := by
  rw [removeWord_eq]
  have hcb : ∀ cc a' b',
      ownMap dir (clearBlocks dir x y w.length cc) a' b' =
        ownMap dir cc a' b' := by
    intro cc a' b'
    cases dir
    · exact getH_clearBlocks ..
    · exact getV_clearBlocks ..
  rw [hcb]
  exact ownMap_clearCells_in dir _ _ _ _ a b hin

theorem ownMap_removeWord_out (c : Crossword) (w : List Char) (x y : Int)
    (dir : Direction) (a b : Int)
    (hout : ¬ InSpan dir x y w.length a b) :
    ownMap dir (removeWord c w x y dir) a b = ownMap dir c a b := by
  rw [removeWord_eq]
  have hcb : ∀ cc a' b',
      ownMap dir (clearBlocks dir x y w.length cc) a' b' =
        ownMap dir cc a' b' := by
    intro cc a' b'
    cases dir
    · exact getH_clearBlocks ..
    · exact getV_clearBlocks ..
  rw [hcb, ownMap_clearCells_out dir _ _ _ _ a b hout]
  cases dir <;> rfl

theorem oppMap_removeWord (c : Crossword) (w : List Char) (x y : Int)
    (dir : Direction) (a b : Int) :
    oppMap dir (removeWord c w x y dir) a b = oppMap dir c a b := by
  rw [removeWord_eq]
  have hcb : ∀ cc a' b',
      oppMap dir (clearBlocks dir x y w.length cc) a' b' =
        oppMap dir cc a' b' := by
    intro cc a' b'
    cases dir
    · exact getV_clearBlocks ..
    · exact getH_clearBlocks ..
  rw [hcb, oppMap_clearCells]
  cases dir <;> rfl

theorem getCellB_removeWord_span (c : Crossword) (w : List Char)
    (x y : Int) (dir : Direction) (i : Nat) (hi : i < w.length) :
    getCellB (removeWord c w x y dir) (spanX dir x i) (spanY dir y i) =
      if oppMap dir c (spanX dir x i) (spanY dir y i) = 0 then ' '
      else getCellB c (spanX dir x i) (spanY dir y i) := by
  rw [removeWord_eq]
  obtain ⟨hnb, hna⟩ := span_ne_boundary dir x y w.length i hi
  rw [getCellB_clearBlocks_out _ _ _ _ _ _ _ hnb hna,
    getCellB_clearCells_in dir _ _ _ _ i hi]
  cases dir <;> rfl

theorem getCellB_removeWord_out (c : Crossword) (w : List Char)
    (x y : Int) (dir : Direction) (a b : Int)
    (hout : ¬ InSpan dir x y w.length a b)
    (hb : ¬(a = beforeX dir x ∧ b = beforeY dir y))
    (ha : ¬(a = afterX dir x w.length ∧ b = afterY dir y w.length)) :
    getCellB (removeWord c w x y dir) a b = getCellB c a b := by
  rw [removeWord_eq, getCellB_clearBlocks_out _ _ _ _ _ _ _ hb ha,
    getCellB_clearCells_out dir _ _ _ _ a b hout]
  rfl

/-! ## Extraction lemmas from `canBePlaced` acceptance -/

theorem scanWord_cons (c : Crossword) (ch : Char) (rest : List Char)
    (x y : Int) (dir : Direction) :
    scanWord c (ch :: rest) x y dir =
      if cellOk c ch x y dir then
        (scanWord c rest (advX dir x) (advY dir y) dir).map
          (fun n => (if getCellB c x y == ch then 1 else 0) + n)
      else none := by
  cases dir <;> rfl

theorem cellOk_facts (c : Crossword) (ch : Char) (x y : Int)
    (dir : Direction) (h : cellOk c ch x y dir = true) :
    isValidPosition c x y = true ∧
    (getCellB c x y = ' ' ∨ getCellB c x y = ch) := by
  unfold cellOk at h
  simp only [Bool.and_eq_true, Bool.or_eq_true, beq_iff_eq] at h
  exact ⟨h.1.1, h.1.2⟩

theorem scanWord_facts (c : Crossword) :
    ∀ (w : List Char) (x y : Int) (dir : Direction) (n : Nat),
      scanWord c w x y dir = some n →
      ∀ i, i < w.length →
        isValidPosition c (spanX dir x i) (spanY dir y i) = true ∧
        (getCellB c (spanX dir x i) (spanY dir y i) = ' ' ∨
         getCellB c (spanX dir x i) (spanY dir y i) = w.getD i ' ')
  | [], _, _, _, _, _, i, hi => absurd hi (by simp)
  | ch :: rest, x, y, dir, n, hs, i, hi => by
    rw [scanWord_cons] at hs
    by_cases hok : cellOk c ch x y dir = true
    · rw [if_pos hok] at hs
      obtain ⟨m, hm, -⟩ := Option.map_eq_some'.mp hs
      cases i with
      | zero =>
        rw [spanX_zero, spanY_zero]
        exact cellOk_facts c ch x y dir hok
      | succ i =>
        rw [← spanX_adv, ← spanY_adv]
        exact scanWord_facts c rest (advX dir x) (advY dir y) dir m hm i
          (by simpa using hi)
    · rw [if_neg hok] at hs
      exact absurd hs (by simp)

theorem scanWord_count (c : Crossword) :
    ∀ (w : List Char) (x y : Int) (dir : Direction) (n : Nat),
      scanWord c w x y dir = some n →
      n = (List.range w.length).countP
            (fun i =>
              getCellB c (spanX dir x i) (spanY dir y i) == w.getD i ' ')
  | [], _, _, _, n, hs => by
    have h0 : (0 : Nat) = n := by simpa [scanWord] using hs
    simp [← h0]
  | ch :: rest, x, y, dir, n, hs => by
    rw [scanWord_cons] at hs
    by_cases hok : cellOk c ch x y dir = true
    · rw [if_pos hok] at hs
      obtain ⟨m, hm, hn⟩ := Option.map_eq_some'.mp hs
      have ih := scanWord_count c rest (advX dir x) (advY dir y) dir m hm
      rw [List.length_cons, List.range_succ_eq_map, List.countP_cons,
        List.countP_map]
      have hhead :
          (getCellB c (spanX dir x 0) (spanY dir y 0) ==
            (ch :: rest).getD 0 ' ') = (getCellB c x y == ch) := by
        rw [spanX_zero, spanY_zero]
        rfl
      have htail : ((fun i =>
            getCellB c (spanX dir x i) (spanY dir y i) ==
              (ch :: rest).getD i ' ') ∘ (· + 1)) = fun i =>
            getCellB c (spanX dir (advX dir x) i) (spanY dir (advY dir y) i)
              == rest.getD i ' ' := by
        funext i
        simp only [Function.comp]
        rw [spanX_adv, spanY_adv]
        rfl
      rw [hhead, htail, ← ih, ← hn]
      split <;> omega
    · rw [if_neg hok] at hs
      exact absurd hs (by simp)

theorem canBePlaced_nonneg (c : Crossword) (w : List Char) (x y : Int)
    (dir : Direction) (h : 0 ≤ canBePlaced c w x y dir) :
    ∃ n : Nat, scanWord c w x y dir = some n ∧
      endsOk c w x y dir = true ∧ canBePlaced c w x y dir = n := by
  cases hs : scanWord c w x y dir with
  | none =>
    simp only [canBePlaced, hs] at h
    exact absurd h (by norm_num)
  | some n =>
    simp only [canBePlaced, hs] at h ⊢
    by_cases he : endsOk c w x y dir = true
    · rw [if_pos he]
      exact ⟨n, rfl, he, rfl⟩
    · rw [if_neg he] at h
      exact absurd h (by norm_num)

theorem endsOk_half (A : Bool) (s : Char)
    (h : (A && s != ' ' && s != '*') = false) (hv : A = true) :
    s = ' ' ∨ s = '*' := by
  rw [hv] at h
  simp only [Bool.true_and, Bool.and_eq_false_iff, bne_eq_false_iff_eq] at h
  exact h

theorem endsOk_facts (c : Crossword) (w : List Char) (x y : Int)
    (dir : Direction) (he : endsOk c w x y dir = true) :
    (isValidPosition c (beforeX dir x) (beforeY dir y) = true →
      getCellB c (beforeX dir x) (beforeY dir y) = ' ' ∨
      getCellB c (beforeX dir x) (beforeY dir y) = '*') ∧
    (isValidPosition c (afterX dir x w.length) (afterY dir y w.length) =
        true →
      getCellB c (afterX dir x w.length) (afterY dir y w.length) = ' ' ∨
      getCellB c (afterX dir x w.length) (afterY dir y w.length) = '*') := by
  cases dir
  · unfold endsOk at he
    simp only [Bool.and_eq_true, Bool.not_eq_true'] at he
    constructor
    · simp only [beforeX, beforeY]
      intro hv
      exact endsOk_half _ _ he.1 hv
    · simp only [afterX, afterY]
      intro hv
      exact endsOk_half _ _ he.2 hv
  · unfold endsOk at he
    simp only [Bool.and_eq_true, Bool.not_eq_true'] at he
    constructor
    · simp only [beforeX, beforeY]
      intro hv
      exact endsOk_half _ _ he.1 hv
    · simp only [afterX, afterY]
      intro hv
      exact endsOk_half _ _ he.2 hv

/-! ## Out-of-grid cells carry no occupancy -/

theorem getH_oob (c : Crossword) (a b : Int) (hD : Dims c)
    (h : ¬ isValidPosition c a b = true) : getH c a b = 0 := by
  unfold getH
  by_cases hab : 0 ≤ a ∧ 0 ≤ b
  · rw [if_pos hab]
    unfold isValidPosition at h
    simp only [Bool.and_eq_true, decide_eq_true_eq, not_and_or] at h
    have hrange : c.height.toNat ≤ a.toNat ∨ c.width.toNat ≤ b.toNat := by
      rcases h with (((h | h) | h) | h)
      · exact absurd hab.1 h
      · left; omega
      · exact absurd hab.2 h
      · right; omega
    rcases hrange with hx | hy
    · unfold get2
      have hrow : c.hWords.getD a.toNat [] = [] :=
        getD_oob _ _ _ (by rw [hD.hl]; exact hx)
      rw [hrow]
      simp
    · by_cases hx : a.toNat < c.height.toNat
      · unfold get2
        exact getD_oob _ _ _ (by rw [hD.hr _ hx]; exact hy)
      · unfold get2
        have hrow : c.hWords.getD a.toNat [] = [] :=
          getD_oob _ _ _ (by rw [hD.hl]; omega)
        rw [hrow]
        simp
  · rw [if_neg hab]

theorem getV_oob (c : Crossword) (a b : Int) (hD : Dims c)
    (h : ¬ isValidPosition c a b = true) : getV c a b = 0 := by
  unfold getV
  by_cases hab : 0 ≤ a ∧ 0 ≤ b
  · rw [if_pos hab]
    unfold isValidPosition at h
    simp only [Bool.and_eq_true, decide_eq_true_eq, not_and_or] at h
    have hrange : c.height.toNat ≤ a.toNat ∨ c.width.toNat ≤ b.toNat := by
      rcases h with (((h | h) | h) | h)
      · exact absurd hab.1 h
      · left; omega
      · exact absurd hab.2 h
      · right; omega
    rcases hrange with hx | hy
    · unfold get2
      have hrow : c.vWords.getD a.toNat [] = [] :=
        getD_oob _ _ _ (by rw [hD.vl]; exact hx)
      rw [hrow]
      simp
    · by_cases hx : a.toNat < c.height.toNat
      · unfold get2
        exact getD_oob _ _ _ (by rw [hD.vr _ hx]; exact hy)
      · unfold get2
        have hrow : c.vWords.getD a.toNat [] = [] :=
          getD_oob _ _ _ (by rw [hD.vl]; omega)
        rw [hrow]
        simp
  · rw [if_neg hab]

theorem ownMap_oob (dir : Direction) (c : Crossword) (a b : Int)
    (hD : Dims c) (h : ¬ isValidPosition c a b = true) :
    ownMap dir c a b = 0 := by
  cases dir
  · exact getH_oob c a b hD h
  · exact getV_oob c a b hD h

theorem oppMap_oob (dir : Direction) (c : Crossword) (a b : Int)
    (hD : Dims c) (h : ¬ isValidPosition c a b = true) :
    oppMap dir c a b = 0 := by
  cases dir
  · exact getV_oob c a b hD h
  · exact getH_oob c a b hD h

/-! ## State invariants of guarded commits -/

/-- A single `putWord` attempt (word, origin, orientation) as the search
driver issues it. -/
structure PutOp where
  word : List Char
  x : Int
  y : Int
  dir : Direction
deriving DecidableEq

/-- A `putWord` call guarded by `canBePlaced` acceptance, exactly as
`GeneratePuzzle` performs commits. -/
def guardedPut (c : Crossword) (o : PutOp) : Crossword :=
  if 0 ≤ canBePlaced c o.word o.x o.y o.dir then
    putWord c o.word o.x o.y o.dir
  else c

/-- A sequence of guarded commits. -/
def applyPuts (ops : List PutOp) (c : Crossword) : Crossword :=
  ops.foldl guardedPut c

/-- Every cell claimed by either occupancy map holds a letter: neither
blank nor the block marker. -/
def OccupiedLetter (c : Crossword) : Prop :=
  ∀ a b : Int, (0 < getH c a b ∨ 0 < getV c a b) →
    getCellB c a b ≠ ' ' ∧ getCellB c a b ≠ '*'

/-- No two distinct words of the same orientation claim adjacent collinear
cells: consecutive cells along an orientation's axis claimed by that
orientation always belong to the same word (same sequence ordinal). -/
def NoAdjacentCollinear (c : Crossword) : Prop :=
  ∀ (d : Direction) (a b : Int),
    0 < ownMap d c a b → 0 < ownMap d c (advX d a) (advY d b) →
    ownMap d c a b = ownMap d c (advX d a) (advY d b)

/-- A word made of letter characters only. -/
def LetterWord (w : List Char) : Prop := ∀ ch ∈ w, ch ≠ ' ' ∧ ch ≠ '*'

instance (w : List Char) : Decidable (LetterWord w) := by
  unfold LetterWord
  infer_instance

theorem own_opp_cover (dir : Direction) (c : Crossword) (a b : Int) :
    (0 < getH c a b ∨ 0 < getV c a b) ↔
      (0 < ownMap dir c a b ∨ 0 < oppMap dir c a b) := by
  cases dir
  · exact Iff.rfl
  · exact Or.comm

theorem ownMap_other (d dir : Direction) (h : d ≠ dir) (c : Crossword)
    (a b : Int) : ownMap d c a b = oppMap dir c a b := by
  cases d <;> cases dir <;> first | rfl | exact absurd rfl h

/-- The cell after the span end is the after-boundary cell. -/
theorem span_end_boundary (dir : Direction) (x y : Int) (n : Nat) :
    spanX dir x n = afterX dir x n ∧ spanY dir y n = afterY dir y n := by
  cases dir <;> exact ⟨rfl, rfl⟩

/-- A cell whose successor is span cell `i+1` is span cell `i`, and a cell
whose successor is span cell `0` is the before-boundary cell. -/
theorem adv_span_pred (dir : Direction) (x y a b : Int) (i : Nat)
    (hx : advX dir a = spanX dir x i) (hy : advY dir b = spanY dir y i) :
    (i = 0 → a = beforeX dir x ∧ b = beforeY dir y) ∧
    (∀ j, i = j + 1 → a = spanX dir x j ∧ b = spanY dir y j) := by
  cases dir <;>
    simp only [advX, advY, spanX, spanY, beforeX, beforeY] at hx hy ⊢ <;>
    constructor
  · rintro rfl
    constructor <;> omega
  · intro j hj
    subst hj
    constructor <;> omega
  · rintro rfl
    constructor <;> omega
  · intro j hj
    subst hj
    constructor <;> omega

/-- A character of a letter word is a letter. -/
theorem LetterWord_getD (w : List Char) (i : Nat) (hi : i < w.length)
    (h : LetterWord w) : w.getD i ' ' ≠ ' ' ∧ w.getD i ' ' ≠ '*' := by
  rw [List.getD_eq_getElem w ' ' hi]
  exact h _ (List.getElem_mem hi)

/-- The boundary cells of an accepted placement carry no occupancy claim
in a state where every claimed cell holds a letter. -/
theorem boundary_unclaimed (c : Crossword) (w : List Char) (x y : Int)
    (dir : Direction) (hD : Dims c) (hOL : OccupiedLetter c)
    (he : endsOk c w x y dir = true) :
    (getH c (beforeX dir x) (beforeY dir y) = 0 ∧
     getV c (beforeX dir x) (beforeY dir y) = 0) ∧
    (getH c (afterX dir x w.length) (afterY dir y w.length) = 0 ∧
     getV c (afterX dir x w.length) (afterY dir y w.length) = 0) := by
  obtain ⟨hbef, haft⟩ := endsOk_facts c w x y dir he
  constructor
  · by_cases hv : isValidPosition c (beforeX dir x) (beforeY dir y) = true
    · rcases hbef hv with hsp | hst <;>
      · constructor <;>
        · by_contra hpos
          rcases hOL (beforeX dir x) (beforeY dir y)
            (by omega) with ⟨h1, h2⟩
          first
          | exact h1 hsp
          | exact h2 hst
    · exact ⟨getH_oob _ _ _ hD hv, getV_oob _ _ _ hD hv⟩
  · by_cases hv : isValidPosition c (afterX dir x w.length)
        (afterY dir y w.length) = true
    · rcases haft hv with hsp | hst <;>
      · constructor <;>
        · by_contra hpos
          rcases hOL (afterX dir x w.length) (afterY dir y w.length)
            (by omega) with ⟨h1, h2⟩
          first
          | exact h1 hsp
          | exact h2 hst
    · exact ⟨getH_oob _ _ _ hD hv, getV_oob _ _ _ hD hv⟩

theorem adv_spanX (dir : Direction) (x : Int) (i : Nat) :
    advX dir (spanX dir x i) = spanX dir x (i+1) := by
  cases dir <;> simp [advX, spanX] <;> omega

theorem adv_spanY (dir : Direction) (y : Int) (i : Nat) :
    advY dir (spanY dir y i) = spanY dir y (i+1) := by
  cases dir <;> simp [advY, spanY] <;> omega

/-- A single guarded commit of a letter word preserves both board
invariants: claimed cells hold letters, and no two distinct
same-orientation words sit on adjacent collinear cells. -/
theorem invariant_putWord (c : Crossword) (w : List Char) (x y : Int)
    (dir : Direction) (hD : Dims c) (hlet : LetterWord w)
    (hOL : OccupiedLetter c) (hNA : NoAdjacentCollinear c)
    (hacc : 0 ≤ canBePlaced c w x y dir) :
    OccupiedLetter (putWord c w x y dir) ∧
    NoAdjacentCollinear (putWord c w x y dir) := by
  by_cases hu : w ∈ c.usedWords
  · rw [putWord_used c w x y dir hu]
    exact ⟨hOL, hNA⟩
  obtain ⟨n0, hscan, hends, -⟩ := canBePlaced_nonneg c w x y dir hacc
  have hval : ∀ i, i < w.length →
      isValidPosition c (spanX dir x i) (spanY dir y i) = true :=
    fun i hi => (scanWord_facts c w x y dir n0 hscan i hi).1
  obtain ⟨⟨hHbef, hVbef⟩, hHaft, hVaft⟩ :=
    boundary_unclaimed c w x y dir hD hOL hends
  have hob : ownMap dir c (beforeX dir x) (beforeY dir y) = 0 := by
    cases dir
    · exact hHbef
    · exact hVbef
  have hoa : ownMap dir c (afterX dir x w.length)
      (afterY dir y w.length) = 0 := by
    cases dir
    · exact hHaft
    · exact hVaft
  constructor
  · intro a b hclaim
    by_cases hin : InSpan dir x y w.length a b
    · obtain ⟨i, hi, ha, hb⟩ := hin
      subst ha
      subst hb
      rw [getCellB_putWord_span c w x y dir i hu hD hval hi]
      exact LetterWord_getD w i hi hlet
    · have hown : ownMap dir (putWord c w x y dir) a b =
          ownMap dir c a b := ownMap_putWord_out c w x y dir a b hu hin
      have hopp : oppMap dir (putWord c w x y dir) a b =
          oppMap dir c a b := oppMap_putWord c w x y dir a b hu
      have hclaim' : 0 < getH c a b ∨ 0 < getV c a b := by
        rw [own_opp_cover dir] at hclaim ⊢
        rw [hown, hopp] at hclaim
        exact hclaim
      by_cases hbe : a = beforeX dir x ∧ b = beforeY dir y
      · exfalso
        rw [hbe.1, hbe.2] at hclaim'
        rcases hclaim' with hp | hp
        · omega
        · omega
      · by_cases haf : a = afterX dir x w.length ∧
            b = afterY dir y w.length
        · exfalso
          rw [haf.1, haf.2] at hclaim'
          rcases hclaim' with hp | hp
          · omega
          · omega
        · rw [getCellB_putWord_out c w x y dir a b hu hin hbe haf]
          exact hOL a b hclaim'
  · intro d a b h1 h2
    by_cases hd : d = dir
    · subst hd
      by_cases hin1 : InSpan d x y w.length a b
      · by_cases hin2 : InSpan d x y w.length (advX d a) (advY d b)
        · rw [ownMap_putWord_in c w x y d a b hu hD hval hin1,
            ownMap_putWord_in c w x y d (advX d a) (advY d b) hu hD hval
              hin2]
        · exfalso
          obtain ⟨i, hi, ha, hb⟩ := hin1
          subst ha
          subst hb
          have hadvx : advX d (spanX d x i) = spanX d x (i+1) :=
            adv_spanX d x i
          have hadvy : advY d (spanY d y i) = spanY d y (i+1) :=
            adv_spanY d y i
          by_cases hi1 : i + 1 < w.length
          · exact hin2 ⟨i+1, hi1, hadvx, hadvy⟩
          · have hend : i + 1 = w.length := by omega
            rw [ownMap_putWord_out c w x y d _ _ hu hin2] at h2
            rw [hadvx, hadvy, hend,
              (span_end_boundary d x y w.length).1,
              (span_end_boundary d x y w.length).2, hoa] at h2
            omega
      · by_cases hin2 : InSpan d x y w.length (advX d a) (advY d b)
        · exfalso
          obtain ⟨i, hi, ha2, hb2⟩ := hin2
          obtain ⟨hzero, hsucc⟩ := adv_span_pred d x y a b i ha2 hb2
          cases i with
          | zero =>
            obtain ⟨ha0, hb0⟩ := hzero rfl
            rw [ownMap_putWord_out c w x y d a b hu hin1] at h1
            rw [ha0, hb0, hob] at h1
            omega
          | succ j =>
            obtain ⟨haj, hbj⟩ := hsucc j rfl
            exact hin1 ⟨j, by omega, haj, hbj⟩
        · have e1 := ownMap_putWord_out c w x y d a b hu hin1
          have e2 := ownMap_putWord_out c w x y d (advX d a) (advY d b)
            hu hin2
          rw [e1] at h1
          rw [e2] at h2
          rw [e1, e2]
          exact hNA d a b h1 h2
    · have e1 : ownMap d (putWord c w x y dir) a b = ownMap d c a b := by
        rw [ownMap_other d dir hd, oppMap_putWord c w x y dir a b hu,
          ← ownMap_other d dir hd]
      have e2 : ownMap d (putWord c w x y dir) (advX d a) (advY d b) =
          ownMap d c (advX d a) (advY d b) := by
        rw [ownMap_other d dir hd, oppMap_putWord c w x y dir _ _ hu,
          ← ownMap_other d dir hd]
      rw [e1] at h1
      rw [e2] at h2
      rw [e1, e2]
      exact hNA d a b h1 h2

theorem applyPuts_cons (o : PutOp) (ops : List PutOp) (c : Crossword) :
    applyPuts (o :: ops) c = applyPuts ops (guardedPut c o) := rfl

theorem invariant_applyPuts :
    ∀ (ops : List PutOp) (c : Crossword), Dims c → OccupiedLetter c →
      NoAdjacentCollinear c → (∀ o ∈ ops, LetterWord o.word) →
      Dims (applyPuts ops c) ∧ OccupiedLetter (applyPuts ops c) ∧
        NoAdjacentCollinear (applyPuts ops c)
  | [], _, hD, hOL, hNA, _ => ⟨hD, hOL, hNA⟩
  | o :: ops, c, hD, hOL, hNA, hlet => by
    rw [applyPuts_cons]
    have step : Dims (guardedPut c o) ∧ OccupiedLetter (guardedPut c o) ∧
        NoAdjacentCollinear (guardedPut c o) := by
      unfold guardedPut
      split
      · next hacc =>
        obtain ⟨hOL', hNA'⟩ := invariant_putWord c o.word o.x o.y o.dir hD
          (hlet o (by simp)) hOL hNA hacc
        exact ⟨Dims_putWord c o.word o.x o.y o.dir hD, hOL', hNA'⟩
      · exact ⟨hD, hOL, hNA⟩
    exact invariant_applyPuts ops (guardedPut c o) step.1 step.2.1 step.2.2
      (fun o' ho' => hlet o' (by simp [ho']))

theorem OccupiedLetter_NewCrossword (w h : Nat) :
    OccupiedLetter (NewCrossword w h) := by
  intro a b hcl
  rw [getH_NewCrossword, getV_NewCrossword] at hcl
  omega

theorem NoAdjacentCollinear_NewCrossword (w h : Nat) :
    NoAdjacentCollinear (NewCrossword w h) := by
  intro d a b h1 h2
  exfalso
  cases d
  · rw [show ownMap Direction.horizontal (NewCrossword w h) a b =
      getH (NewCrossword w h) a b from rfl, getH_NewCrossword] at h1
    omega
  · rw [show ownMap Direction.vertical (NewCrossword w h) a b =
      getV (NewCrossword w h) a b from rfl, getV_NewCrossword] at h1
    omega

/-! ## Unfolding lemmas for the search driver -/

theorem generateAux_zero (ws : List (List Char)) (chooser : Nat → Nat)
    (expired : Nat → Bool) (pos t : Nat) (c : Crossword) :
    generateAux ws chooser expired 0 pos t c = (true, c, t) := rfl

theorem generateAux_succ (ws : List (List Char)) (chooser : Nat → Nat)
    (expired : Nat → Bool) (fuel pos t : Nat) (c : Crossword) :
    generateAux ws chooser expired (fuel+1) pos t c =
      if expired t then (false, c, t+1)
      else
        match findBestPosition c (ws.getD pos []) (chooser t) with
        | some p =>
          let c1 := putWord c (ws.getD pos []) p.x p.y p.dir
          let r := generateAux ws chooser expired fuel (pos+1) (t+1) c1
          if r.1 then r
          else
            generateAux ws chooser expired fuel (pos+1) r.2.2
              (removeWord r.2.1 (ws.getD pos []) p.x p.y p.dir)
        | none => generateAux ws chooser expired fuel (pos+1) (t+1) c :=
  rfl

theorem generateAux_expired (ws : List (List Char)) (chooser : Nat → Nat)
    (expired : Nat → Bool) (fuel pos t : Nat) (c : Crossword)
    (h : expired t = true) :
    generateAux ws chooser expired (fuel+1) pos t c = (false, c, t+1) := by
  rw [generateAux_succ, h]
  rfl

theorem generateAux_none (ws : List (List Char)) (chooser : Nat → Nat)
    (expired : Nat → Bool) (fuel pos t : Nat) (c : Crossword)
    (h : expired t = false)
    (hn : findBestPosition c (ws.getD pos []) (chooser t) = none) :
    generateAux ws chooser expired (fuel+1) pos t c =
      generateAux ws chooser expired fuel (pos+1) (t+1) c := by
  rw [generateAux_succ, h, hn]
  rfl

theorem generateAux_some (ws : List (List Char)) (chooser : Nat → Nat)
    (expired : Nat → Bool) (fuel pos t : Nat) (c : Crossword) (p : Position)
    (h : expired t = false)
    (hs : findBestPosition c (ws.getD pos []) (chooser t) = some p) :
    generateAux ws chooser expired (fuel+1) pos t c =
      (if (generateAux ws chooser expired fuel (pos+1) (t+1)
            (putWord c (ws.getD pos []) p.x p.y p.dir)).1 then
        generateAux ws chooser expired fuel (pos+1) (t+1)
          (putWord c (ws.getD pos []) p.x p.y p.dir)
      else
        generateAux ws chooser expired fuel (pos+1)
          (generateAux ws chooser expired fuel (pos+1) (t+1)
            (putWord c (ws.getD pos []) p.x p.y p.dir)).2.2
          (removeWord
            (generateAux ws chooser expired fuel (pos+1) (t+1)
              (putWord c (ws.getD pos []) p.x p.y p.dir)).2.1
            (ws.getD pos []) p.x p.y p.dir)) := by
  rw [generateAux_succ, h, hs]
  rfl

/-- With a monotone clock (once expired, always expired), a failing
search run ends with the clock expired: the only source of failure is the
deadline check. -/
theorem generateAux_false_expired (ws : List (List Char))
    (cho : Nat → Nat) (exp : Nat → Bool)
    (hmono : ∀ i, exp i = true → exp (i+1) = true) :
    ∀ (fuel pos t : Nat) (c : Crossword),
      (generateAux ws cho exp fuel pos t c).1 = false →
      exp (generateAux ws cho exp fuel pos t c).2.2 = true
  | 0, pos, t, c, hf => by
    rw [generateAux_zero] at hf
    simp at hf
  | fuel+1, pos, t, c, hf => by
    by_cases hex : exp t = true
    · rw [generateAux_expired ws cho exp fuel pos t c hex] at hf ⊢
      exact hmono t hex
    · have hex' : exp t = false := by
        revert hex
        cases exp t <;> simp
      cases hfb : findBestPosition c (ws.getD pos []) (cho t) with
      | none =>
        rw [generateAux_none ws cho exp fuel pos t c hex' hfb] at hf ⊢
        exact generateAux_false_expired ws cho exp hmono fuel (pos+1)
          (t+1) c hf
      | some p =>
        rw [generateAux_some ws cho exp fuel pos t c p hex' hfb] at hf ⊢
        by_cases hr1 : (generateAux ws cho exp fuel (pos+1) (t+1)
            (putWord c (ws.getD pos []) p.x p.y p.dir)).1 = true
        · rw [if_pos hr1] at hf ⊢
          rw [hr1] at hf
          simp at hf
        · rw [if_neg hr1] at hf ⊢
          exact generateAux_false_expired ws cho exp hmono fuel (pos+1)
            _ _ hf

theorem putWord_used_mem (c : Crossword) (u : List Char) (x y : Int)
    (d : Direction) (w : List Char) (hne : u ≠ w) :
    w ∈ (putWord c u x y d).usedWords ↔ w ∈ c.usedWords := by
  by_cases hu : u ∈ c.usedWords
  · rw [putWord_used c u x y d hu]
  · rw [putWord_usedWords_not c u x y d hu]
    constructor
    · intro h
      rcases List.mem_cons.mp h with h | h
      · exact absurd h.symm hne
      · exact h
    · exact List.mem_cons_of_mem u

/-- A single `putWord` adds at most one placement record with a given
word, and adds none when that word is already used; it never unmarks a
used word. -/
theorem putWord_count (c : Crossword) (u : List Char) (x y : Int)
    (d : Direction) (w : List Char) :
    (putWord c u x y d).placements.countP (fun pl => pl.word == w) ≤
      c.placements.countP (fun pl => pl.word == w) +
        (if w ∈ c.usedWords then 0 else 1) ∧
    (w ∈ c.usedWords → w ∈ (putWord c u x y d).usedWords) := by
  by_cases hu : u ∈ c.usedWords
  · rw [putWord_used c u x y d hu]
    exact ⟨Nat.le_add_right _ _, id⟩
  · constructor
    · rw [putWord_placements_not c u x y d hu, List.countP_append]
      by_cases huw : u = w
      · subst huw
        rw [if_neg hu]
        have h1 : (([⟨x, y, d, u.length, u⟩] :
            List WordPlacement).countP (fun pl => pl.word == u)) = 1 := by
          simp [List.countP_cons]
        omega
      · have h0 : (([⟨x, y, d, u.length, u⟩] :
            List WordPlacement).countP (fun pl => pl.word == w)) = 0 := by
          simp [List.countP_cons, huw]
        rw [h0]
        have h2 : c.placements.countP (fun pl => pl.word == w) + 0 =
            c.placements.countP (fun pl => pl.word == w) := rfl
        rw [h2]
        exact Nat.le_add_right _ _
    · rw [putWord_usedWords_not c u x y d hu]
      exact List.mem_cons_of_mem u

/-- Through a whole (possibly failing and backtracking) search run, the
number of placement records carrying a given word grows by at most one,
and not at all if the word is already marked used: commits guard on the
used set, removes happen only after the deadline has tripped, and after
the deadline no further commits occur. -/
theorem generateAux_count (ws : List (List Char)) (cho : Nat → Nat)
    (exp : Nat → Bool) (hmono : ∀ i, exp i = true → exp (i+1) = true)
    (w : List Char) :
    ∀ (fuel pos t : Nat) (c : Crossword),
      (generateAux ws cho exp fuel pos t c).2.1.placements.countP
        (fun pl => pl.word == w) ≤
      c.placements.countP (fun pl => pl.word == w) +
        (if w ∈ c.usedWords then 0 else 1)
  | 0, pos, t, c => by
    rw [generateAux_zero]
    exact Nat.le_add_right _ _
  | fuel+1, pos, t, c => by
    by_cases hex : exp t = true
    · rw [generateAux_expired ws cho exp fuel pos t c hex]
      exact Nat.le_add_right _ _
    · have hex' : exp t = false := by
        revert hex
        cases exp t <;> simp
      cases hfb : findBestPosition c (ws.getD pos []) (cho t) with
      | none =>
        rw [generateAux_none ws cho exp fuel pos t c hex' hfb]
        exact generateAux_count ws cho exp hmono w fuel (pos+1) (t+1) c
      | some p =>
        rw [generateAux_some ws cho exp fuel pos t c p hex' hfb]
        set u := ws.getD pos [] with hu
        obtain ⟨hputc, hputm⟩ := putWord_count c u p.x p.y p.dir w
        have hchild := generateAux_count ws cho exp hmono w fuel (pos+1)
          (t+1) (putWord c u p.x p.y p.dir)
        have hkey : (generateAux ws cho exp fuel (pos+1) (t+1)
            (putWord c u p.x p.y
              p.dir)).2.1.placements.countP (fun pl => pl.word == w) ≤
            c.placements.countP (fun pl => pl.word == w) +
              (if w ∈ c.usedWords then 0 else 1) := by
          by_cases hw : w ∈ c.usedWords
          · rw [if_pos (hputm hw)] at hchild
            rw [if_pos hw] at hputc
            rw [if_pos hw]
            omega
          · rw [if_neg hw]
            by_cases huw : u = w
            · have hw1 : w ∈ (putWord c u p.x p.y p.dir).usedWords := by
                rw [putWord_usedWords_not c u p.x p.y p.dir
                  (huw ▸ hw), huw]
                exact List.mem_cons_self _ _
              rw [if_pos hw1] at hchild
              have hcnt1 : (putWord c u p.x p.y
                  p.dir).placements.countP (fun pl => pl.word == w) =
                  c.placements.countP (fun pl => pl.word == w) + 1 := by
                rw [putWord_placements_not c u p.x p.y p.dir (huw ▸ hw),
                  List.countP_append]
                simp [List.countP_cons, huw]
              omega
            · have hw1 : w ∉ (putWord c u p.x p.y p.dir).usedWords := by
                intro hmem
                exact hw ((putWord_used_mem c u p.x p.y p.dir w
                  huw).mp hmem)
              rw [if_neg hw1] at hchild
              have hcnt1 : (putWord c u p.x p.y
                  p.dir).placements.countP (fun pl => pl.word == w) =
                  c.placements.countP (fun pl => pl.word == w) := by
                by_cases hu2 : u ∈ c.usedWords
                · rw [putWord_used c u p.x p.y p.dir hu2]
                · rw [putWord_placements_not c u p.x p.y p.dir hu2,
                    List.countP_append]
                  simp [List.countP_cons, huw]
              omega
        by_cases hr1 : (generateAux ws cho exp fuel (pos+1) (t+1)
            (putWord c u p.x p.y p.dir)).1 = true
        · rw [if_pos hr1]
          exact hkey
        · rw [if_neg hr1]
          have hfe : exp (generateAux ws cho exp fuel (pos+1) (t+1)
              (putWord c u p.x p.y p.dir)).2.2 = true :=
            generateAux_false_expired ws cho exp hmono fuel (pos+1) (t+1)
              (putWord c u p.x p.y p.dir)
              (by revert hr1; cases (generateAux ws cho exp fuel (pos+1)
                (t+1) (putWord c u p.x p.y p.dir)).1 <;> simp)
          cases fuel with
          | zero =>
            rw [generateAux_zero, removeWord_placements]
            exact hkey
          | succ f =>
            rw [generateAux_expired ws cho exp f (pos+1) _ _ hfe,
              removeWord_placements]
            exact hkey

/-! ## Claim theorems -/

theorem getH_natCast (c : Crossword) (i j : Nat) :
    getH c (i : Int) (j : Int) = get2 c.hWords 0 i j := by
  unfold getH
  rw [if_pos ⟨Int.natCast_nonneg i, Int.natCast_nonneg j⟩,
    Int.toNat_natCast, Int.toNat_natCast]

theorem getV_natCast (c : Crossword) (i j : Nat) :
    getV c (i : Int) (j : Int) = get2 c.vWords 0 i j := by
  unfold getV
  rw [if_pos ⟨Int.natCast_nonneg i, Int.natCast_nonneg j⟩,
    Int.toNat_natCast, Int.toNat_natCast]

/-- C1 (counterexample): a LIFO-matched sequence of guard-accepted
commit/undo pairs that does not restore the grid.  On a 4-wide, 3-tall
fresh grid: commit `ABC` vertically at `(0,0)`, commit `DE` horizontally
at `(1,2)` (its before-boundary block marker lands on `(1,1)`), then undo
both in LIFO order.  When `DE` is removed, `hasAdjacentWords (1,1)` sees
the letter `B` of the still-present `ABC` next door and keeps the block
marker; removing `ABC` afterwards does not touch `(1,1)`.  The occupancy
maps and the used-word set are restored, but the final board differs from
the initial one: cell `(1,1)` has become `*`. -/
theorem C1_lifo_roundtrip_cx :
    let s0 := NewCrossword 4 3
    let abc : List Char := ['A', 'B', 'C']
    let de : List Char := ['D', 'E']
    let s1 := putWord s0 abc 0 0 .vertical
    let s2 := putWord s1 de 1 2 .horizontal
    let s3 := removeWord s2 de 1 2 .horizontal
    let s4 := removeWord s3 abc 0 0 .vertical
    canBePlaced s0 abc 0 0 .vertical = 0 ∧
    canBePlaced s1 de 1 2 .horizontal = 0 ∧
    s4.hWords = s0.hWords ∧
    s4.vWords = s0.vWords ∧
    s4.usedWords = s0.usedWords ∧
    getCellB s0 1 1 = ' ' ∧
    getCellB s4 1 1 = '*' ∧
    s4.board ≠ s0.board := by decide

/-- C1 (amended): a single guard-accepted `putWord`/`removeWord` pair for
a word not already used restores the occupancy maps and the used-word set
bit-for-bit, and restores every grid cell except possibly the two
boundary cells of the placement (where a blank can remain a block
marker, as the counterexample shows — so the full-grid round-trip law,
and its extension to arbitrary LIFO sequences, fails).  The two
span-consistency hypotheses say the orientation's own occupancy map is
clear along the span and that span cells are blank exactly when the
crossing orientation makes no claim — both hold in every honestly built
state. -/
theorem C1_pair_restores (c : Crossword) (w : List Char) (x y : Int)
    (dir : Direction) (hD : Dims c) (hused : w ∉ c.usedWords)
    (hacc : 0 ≤ canBePlaced c w x y dir)
    (hown : ∀ i, i < w.length →
      ownMap dir c (spanX dir x i) (spanY dir y i) = 0)
    (hcross : ∀ i, i < w.length →
      (getCellB c (spanX dir x i) (spanY dir y i) = ' ' ↔
        oppMap dir c (spanX dir x i) (spanY dir y i) = 0)) :
    (removeWord (putWord c w x y dir) w x y dir).usedWords =
      c.usedWords ∧
    (removeWord (putWord c w x y dir) w x y dir).hWords = c.hWords ∧
    (removeWord (putWord c w x y dir) w x y dir).vWords = c.vWords ∧
    ∀ a b : Int,
      ¬(a = beforeX dir x ∧ b = beforeY dir y) →
      ¬(a = afterX dir x w.length ∧ b = afterY dir y w.length) →
      getCellB (removeWord (putWord c w x y dir) w x y dir) a b =
        getCellB c a b := by
  obtain ⟨n0, hscan, hends, -⟩ := canBePlaced_nonneg c w x y dir hacc
  have hval : ∀ i, i < w.length →
      isValidPosition c (spanX dir x i) (spanY dir y i) = true :=
    fun i hi => (scanWord_facts c w x y dir n0 hscan i hi).1
  have hboard : ∀ i, i < w.length →
      getCellB c (spanX dir x i) (spanY dir y i) = ' ' ∨
      getCellB c (spanX dir x i) (spanY dir y i) = w.getD i ' ' :=
    fun i hi => (scanWord_facts c w x y dir n0 hscan i hi).2
  set c1 := putWord c w x y dir with hc1
  have hown_pt : ∀ a b : Int,
      ownMap dir (removeWord c1 w x y dir) a b = ownMap dir c a b := by
    intro a b
    by_cases hin : InSpan dir x y w.length a b
    · rw [ownMap_removeWord_in c1 w x y dir a b hin]
      obtain ⟨i, hi, rfl, rfl⟩ := hin
      exact (hown i hi).symm
    · rw [ownMap_removeWord_out c1 w x y dir a b hin, hc1,
        ownMap_putWord_out c w x y dir a b hused hin]
  have hopp_pt : ∀ a b : Int,
      oppMap dir (removeWord c1 w x y dir) a b = oppMap dir c a b := by
    intro a b
    rw [oppMap_removeWord c1 w x y dir a b, hc1,
      oppMap_putWord c w x y dir a b hused]
  have hH_pt : ∀ a b : Int,
      getH (removeWord c1 w x y dir) a b = getH c a b := by
    cases dir
    · exact hown_pt
    · exact hopp_pt
  have hV_pt : ∀ a b : Int,
      getV (removeWord c1 w x y dir) a b = getV c a b := by
    cases dir
    · exact hopp_pt
    · exact hown_pt
  have hD2 : Dims (removeWord c1 w x y dir) :=
    Dims_removeWord c1 w x y dir (Dims_putWord c w x y dir hD)
  have hw2 : (removeWord c1 w x y dir).width = c.width := by
    rw [removeWord_width, hc1, putWord_width]
  have hh2 : (removeWord c1 w x y dir).height = c.height := by
    rw [removeWord_height, hc1, putWord_height]
  refine ⟨?_, ?_, ?_, ?_⟩
  · rw [removeWord_usedWords, hc1, putWord_usedWords_not c w x y dir hused]
    have hall : ∀ u ∈ c.usedWords, (u != w) = true := by
      intro u hu
      simp only [bne_iff_ne, ne_eq]
      rintro rfl
      exact hused hu
    simp [List.filter_cons, List.filter_eq_self.mpr hall]
  · refine mat_ext _ _ 0 ?_ ?_ ?_
    · rw [hD2.hl, hD.hl, hh2]
    · intro i
      by_cases hi : i < c.height.toNat
      · rw [hD2.hr i (by rw [hh2]; exact hi), hD.hr i hi, hw2]
      · have e1 : (removeWord c1 w x y dir).hWords.getD i [] = [] :=
          getD_oob _ _ _ (by rw [hD2.hl, hh2]; omega)
        have e2 : c.hWords.getD i [] = [] :=
          getD_oob _ _ _ (by rw [hD.hl]; omega)
        rw [e1, e2]
    · intro i j
      have h0 := hH_pt (i : Int) (j : Int)
      rwa [getH_natCast, getH_natCast] at h0
  · refine mat_ext _ _ 0 ?_ ?_ ?_
    · rw [hD2.vl, hD.vl, hh2]
    · intro i
      by_cases hi : i < c.height.toNat
      · rw [hD2.vr i (by rw [hh2]; exact hi), hD.vr i hi, hw2]
      · have e1 : (removeWord c1 w x y dir).vWords.getD i [] = [] :=
          getD_oob _ _ _ (by rw [hD2.vl, hh2]; omega)
        have e2 : c.vWords.getD i [] = [] :=
          getD_oob _ _ _ (by rw [hD.vl]; omega)
        rw [e1, e2]
    · intro i j
      have h0 := hV_pt (i : Int) (j : Int)
      rwa [getV_natCast, getV_natCast] at h0
  · intro a b hnb hna
    by_cases hin : InSpan dir x y w.length a b
    · obtain ⟨i, hi, rfl, rfl⟩ := hin
      rw [getCellB_removeWord_span c1 w x y dir i hi]
      have hco : oppMap dir c1 (spanX dir x i) (spanY dir y i) =
          oppMap dir c (spanX dir x i) (spanY dir y i) := by
        rw [hc1, oppMap_putWord c w x y dir _ _ hused]
      rw [hco]
      by_cases hz : oppMap dir c (spanX dir x i) (spanY dir y i) = 0
      · rw [if_pos hz]
        exact ((hcross i hi).mpr hz).symm
      · rw [if_neg hz, hc1,
          getCellB_putWord_span c w x y dir i hused hD hval hi]
        rcases hboard i hi with hsp | hlt
        · exact absurd ((hcross i hi).mp hsp) hz
        · exact hlt.symm
    · rw [getCellB_removeWord_out c1 w x y dir a b hin hnb hna, hc1,
        getCellB_putWord_out c w x y dir a b hused hin hnb hna]

/-- Witness for `C1_pair_restores`: commit/undo of `AB` at `(0,0)`
horizontally on a fresh 1×4 grid. -/
theorem C1_pair_restores_witness :
    Dims (NewCrossword 4 1) ∧
    (['A', 'B'] : List Char) ∉ (NewCrossword 4 1).usedWords ∧
    0 ≤ canBePlaced (NewCrossword 4 1) ['A', 'B'] 0 0 .horizontal ∧
    (∀ i, i < (['A', 'B'] : List Char).length →
      ownMap .horizontal (NewCrossword 4 1) (spanX .horizontal 0 i)
        (spanY .horizontal 0 i) = 0) ∧
    (∀ i, i < (['A', 'B'] : List Char).length →
      (getCellB (NewCrossword 4 1) (spanX .horizontal 0 i)
          (spanY .horizontal 0 i) = ' ' ↔
        oppMap .horizontal (NewCrossword 4 1) (spanX .horizontal 0 i)
          (spanY .horizontal 0 i) = 0)) ∧
    (removeWord (putWord (NewCrossword 4 1) ['A', 'B'] 0 0 .horizontal)
        ['A', 'B'] 0 0 .horizontal).usedWords =
      (NewCrossword 4 1).usedWords ∧
    (removeWord (putWord (NewCrossword 4 1) ['A', 'B'] 0 0 .horizontal)
        ['A', 'B'] 0 0 .horizontal).hWords = (NewCrossword 4 1).hWords :=
  ⟨Dims_NewCrossword 4 1, by decide, by decide, by decide, by decide,
    (C1_pair_restores (NewCrossword 4 1) ['A', 'B'] 0 0 .horizontal
      (Dims_NewCrossword 4 1) (by decide) (by decide) (by decide)
      (by decide)).1,
    (C1_pair_restores (NewCrossword 4 1) ['A', 'B'] 0 0 .horizontal
      (Dims_NewCrossword 4 1) (by decide) (by decide) (by decide)
      (by decide)).2.1⟩

theorem stepBest_eq (c : Crossword) (w : List Char)
    (acc : Int × List Position) (p : Position) :
    stepBest c w acc p =
      if canBePlaced c w p.x p.y p.dir < 0 then acc
      else if acc.1 < canBePlaced c w p.x p.y p.dir then
        (canBePlaced c w p.x p.y p.dir, [p])
      else if canBePlaced c w p.x p.y p.dir = acc.1 then
        (acc.1, acc.2 ++ [p])
      else acc := rfl

/-- Invariant of the scoring fold of `findBestPosition`: the tied list
holds exactly the positions scoring the running maximum, the maximum
dominates every accepted candidate processed so far, and the list is
empty exactly when nothing processed was accepted. -/
theorem foldBest_inv (c : Crossword) (w : List Char) :
    ∀ (todo : List Position) (m : Int) (bs : List Position),
      (∀ p ∈ bs, canBePlaced c w p.x p.y p.dir = m) →
      (bs = [] → m = -1) →
      (bs ≠ [] → 0 ≤ m) →
      (∀ p ∈ (todo.foldl (stepBest c w) (m, bs)).2,
        canBePlaced c w p.x p.y p.dir =
          (todo.foldl (stepBest c w) (m, bs)).1) ∧
      ((todo.foldl (stepBest c w) (m, bs)).2 = [] →
        bs = [] ∧ ∀ p ∈ todo, canBePlaced c w p.x p.y p.dir < 0) ∧
      ((todo.foldl (stepBest c w) (m, bs)).2 ≠ [] →
        0 ≤ (todo.foldl (stepBest c w) (m, bs)).1) ∧
      (∀ p ∈ todo, 0 ≤ canBePlaced c w p.x p.y p.dir →
        canBePlaced c w p.x p.y p.dir ≤
          (todo.foldl (stepBest c w) (m, bs)).1) ∧
      (∀ p ∈ (todo.foldl (stepBest c w) (m, bs)).2, p ∈ bs ∨ p ∈ todo) ∧
      m ≤ (todo.foldl (stepBest c w) (m, bs)).1
  | [], m, bs, h1, h2, h4 => by
    refine ⟨h1, fun hbs => ⟨hbs, by simp⟩, h4, by simp, ?_, le_refl m⟩
    intro p hp
    exact Or.inl hp
  | q :: rest, m, bs, h1, h2, h4 => by
    rw [List.foldl_cons, stepBest_eq]
    by_cases hs : canBePlaced c w q.x q.y q.dir < 0
    · rw [if_pos hs]
      obtain ⟨i1, i2, i3, i4, i5, i6⟩ := foldBest_inv c w rest m bs h1 h2 h4
      refine ⟨i1, ?_, i3, ?_, ?_, i6⟩
      · intro hnil
        obtain ⟨hbs, hrest⟩ := i2 hnil
        refine ⟨hbs, ?_⟩
        intro p hp
        rcases List.mem_cons.mp hp with hq | hp
        · rw [hq]
          exact hs
        · exact hrest p hp
      · intro p hp hge
        rcases List.mem_cons.mp hp with hq | hp
        · rw [hq] at hge
          omega
        · exact i4 p hp hge
      · intro p hp
        rcases i5 p hp with hb | ht
        · exact Or.inl hb
        · exact Or.inr (List.mem_cons_of_mem q ht)
    · rw [if_neg hs]
      by_cases hlt : m < canBePlaced c w q.x q.y q.dir
      · rw [if_pos hlt]
        obtain ⟨i1, i2, i3, i4, i5, i6⟩ := foldBest_inv c w rest
          (canBePlaced c w q.x q.y q.dir) [q] (by simp)
          (fun habs => absurd habs (by simp)) (fun _ => by omega)
        refine ⟨i1, ?_, i3, ?_, ?_, by omega⟩
        · intro hnil
          obtain ⟨habs, -⟩ := i2 hnil
          exact absurd habs (by simp)
        · intro p hp hge
          rcases List.mem_cons.mp hp with hq | hp
          · rw [hq]
            exact i6
          · exact i4 p hp hge
        · intro p hp
          rcases i5 p hp with hb | ht
          · rw [List.mem_singleton.mp hb]
            exact Or.inr (List.mem_cons_self q rest)
          · exact Or.inr (List.mem_cons_of_mem q ht)
      · rw [if_neg hlt]
        by_cases heq : canBePlaced c w q.x q.y q.dir = m
        · rw [if_pos heq]
          obtain ⟨i1, i2, i3, i4, i5, i6⟩ := foldBest_inv c w rest m
            (bs ++ [q])
            (by
              intro p hp
              rcases List.mem_append.mp hp with hp | hp
              · exact h1 p hp
              · rw [List.mem_singleton.mp hp]
                exact heq)
            (fun habs => absurd habs (by simp))
            (fun _ => by omega)
          refine ⟨i1, ?_, i3, ?_, ?_, i6⟩
          · intro hnil
            obtain ⟨habs, -⟩ := i2 hnil
            exact absurd habs (by simp)
          · intro p hp hge
            rcases List.mem_cons.mp hp with hq | hp
            · rw [hq, heq]
              exact i6
            · exact i4 p hp hge
          · intro p hp
            rcases i5 p hp with hb | ht
            · rcases List.mem_append.mp hb with hb | hb
              · exact Or.inl hb
              · rw [List.mem_singleton.mp hb]
                exact Or.inr (List.mem_cons_self q rest)
            · exact Or.inr (List.mem_cons_of_mem q ht)
        · rw [if_neg heq]
          obtain ⟨i1, i2, i3, i4, i5, i6⟩ :=
            foldBest_inv c w rest m bs h1 h2 h4
          refine ⟨i1, ?_, i3, ?_, ?_, i6⟩
          · intro hnil
            obtain ⟨hbs, -⟩ := i2 hnil
            have hm := h2 hbs
            omega
          · intro p hp hge
            rcases List.mem_cons.mp hp with hq | hp
            · rw [hq]
              omega
            · exact i4 p hp hge
          · intro p hp
            rcases i5 p hp with hb | ht
            · exact Or.inl hb
            · exact Or.inr (List.mem_cons_of_mem q ht)

theorem candidates_mem_of (c : Crossword) (a b : Int) (d : Direction)
    (ha : 0 ≤ a) (hh : a < c.height) (hb : 0 ≤ b) (hw : b < c.width) :
    (⟨a, b, d⟩ : Position) ∈ candidates c := by
  unfold candidates
  rw [List.mem_flatMap]
  refine ⟨a.toNat, by rw [List.mem_range]; omega, ?_⟩
  rw [List.mem_flatMap]
  refine ⟨b.toNat, by rw [List.mem_range]; omega, ?_⟩
  have hxa : ((a.toNat : Nat) : Int) = a := Int.toNat_of_nonneg ha
  have hyb : ((b.toNat : Nat) : Int) = b := Int.toNat_of_nonneg hb
  cases d <;> simp [hxa, hyb]

theorem candidates_bounds (c : Crossword) (p : Position)
    (hp : p ∈ candidates c) :
    0 ≤ p.x ∧ p.x < c.height ∧ 0 ≤ p.y ∧ p.y < c.width := by
  unfold candidates at hp
  rw [List.mem_flatMap] at hp
  obtain ⟨i, hi, hp⟩ := hp
  rw [List.mem_range] at hi
  rw [List.mem_flatMap] at hp
  obtain ⟨j, hj, hp⟩ := hp
  rw [List.mem_range] at hj
  rcases List.mem_cons.mp hp with hq | hp
  · rw [hq]
    exact ⟨Int.natCast_nonneg i, (show (i : Int) < c.height by omega),
      Int.natCast_nonneg j, (show (j : Int) < c.width by omega)⟩
  · rw [List.mem_singleton.mp hp]
    exact ⟨Int.natCast_nonneg i, (show (i : Int) < c.height by omega),
      Int.natCast_nonneg j, (show (j : Int) < c.width by omega)⟩

/-- C4: `findBestPosition` returns `none` exactly when no in-grid
candidate (any origin, either orientation) is accepted by `canBePlaced`;
otherwise — for every possible random draw `k` — the returned candidate
is accepted and its score equals the maximum `canBePlaced` score over all
in-grid candidates (never less), i.e. it is chosen among the tied
maximum-score set. -/
theorem C4_findBestPosition_best (c : Crossword) (w : List Char)
    (k : Nat) :
    (findBestPosition c w k = none ↔
      ∀ (a b : Int) (d : Direction), 0 ≤ a → a < c.height → 0 ≤ b →
        b < c.width → canBePlaced c w a b d < 0) ∧
    ∀ p, findBestPosition c w k = some p →
      0 ≤ canBePlaced c w p.x p.y p.dir ∧
      ∀ (a b : Int) (d : Direction), 0 ≤ a → a < c.height → 0 ≤ b →
        b < c.width →
        canBePlaced c w a b d ≤ canBePlaced c w p.x p.y p.dir := by
  obtain ⟨i1, i2, i3, i4, i5, i6⟩ := foldBest_inv c w (candidates c)
    (-1) [] (by simp) (fun _ => rfl) (fun habs => absurd rfl habs)
  have hfbp : findBestPositions c w =
      ((candidates c).foldl (stepBest c w) (-1, [])).2 := rfl
  constructor
  · constructor
    · intro hnone a b d ha hh hb hw
      have hnil : findBestPositions c w = [] := by
        by_contra hne
        unfold findBestPosition at hnone
        rw [if_neg hne] at hnone
        exact Option.noConfusion hnone
      rw [hfbp] at hnil
      obtain ⟨-, hall⟩ := i2 hnil
      exact hall ⟨a, b, d⟩ (candidates_mem_of c a b d ha hh hb hw)
    · intro hall
      unfold findBestPosition
      rw [if_pos ?_]
      by_contra hne
      rw [hfbp] at hne
      obtain ⟨p, hp⟩ := List.exists_mem_of_ne_nil _ hne
      have hscore := i1 p hp
      have hpos := i3 hne
      rcases i5 p hp with hb0 | hcand
      · exact absurd hb0 (by simp)
      · obtain ⟨b1, b2, b3, b4⟩ := candidates_bounds c p hcand
        have := hall p.x p.y p.dir b1 b2 b3 b4
        omega
  · intro p hp
    have hbs : findBestPositions c w ≠ [] := by
      intro hnil
      unfold findBestPosition at hp
      rw [if_pos hnil] at hp
      exact Option.noConfusion hp
    have hpmem : p ∈ findBestPositions c w := by
      unfold findBestPosition at hp
      rw [if_neg hbs] at hp
      have hgd := Option.some.inj hp
      have hlen : 0 < (findBestPositions c w).length :=
        List.length_pos.mpr hbs
      rw [← hgd, List.getD_eq_getElem _ _ (Nat.mod_lt k hlen)]
      exact List.getElem_mem _
    rw [hfbp] at hpmem
    have hscore := i1 p hpmem
    have hpos : 0 ≤ ((candidates c).foldl (stepBest c w) (-1, [])).1 :=
      i3 (by rw [← hfbp]; exact hbs)
    refine ⟨by omega, ?_⟩
    intro a b d ha hh hb hw
    by_cases hacc : 0 ≤ canBePlaced c w a b d
    · have h5 : canBePlaced c w a b d ≤
          ((candidates c).foldl (stepBest c w) (-1, [])).1 :=
        i4 ⟨a, b, d⟩ (candidates_mem_of c a b d ha hh hb hw) hacc
      omega
    · omega

/-- Witness for `C4_findBestPosition_best`: on a fresh 2×2 grid with the
one-letter word `A`, draw 0 returns the first tied candidate `(0,0)`
horizontal, whose score 0 dominates every in-grid candidate. -/
theorem C4_findBestPosition_best_witness :
    findBestPosition (NewCrossword 2 2) ['A'] 0 =
      some ⟨0, 0, .horizontal⟩ ∧
    0 ≤ canBePlaced (NewCrossword 2 2) ['A'] 0 0 .horizontal ∧
    ∀ (a b : Int) (d : Direction), 0 ≤ a → a < (NewCrossword 2 2).height →
      0 ≤ b → b < (NewCrossword 2 2).width →
      canBePlaced (NewCrossword 2 2) ['A'] a b d ≤
        canBePlaced (NewCrossword 2 2) ['A'] 0 0 .horizontal :=
  ⟨by decide,
    ((C4_findBestPosition_best (NewCrossword 2 2) ['A'] 0).2
      ⟨0, 0, .horizontal⟩ (by decide)).1,
    ((C4_findBestPosition_best (NewCrossword 2 2) ['A'] 0).2
      ⟨0, 0, .horizontal⟩ (by decide)).2⟩

/-- C5: for every word already in the used-word set, `putWord` with that
word at any coordinates and orientation is a complete no-op (board,
occupancy maps, counters, used set and placement list all unchanged —
the whole state is returned as-is); consequently, running
`GeneratePuzzle` from a fresh grid on any word list — in particular one
containing the same word twice — yields a placement list containing any
given word at most once, for every random draw and every monotone clock
stream. -/
theorem C5_duplicate_putWord_noop :
    (∀ (c : Crossword) (u : List Char) (x y : Int) (d : Direction),
      u ∈ c.usedWords → putWord c u x y d = c) ∧
    (∀ (ws : List (List Char)) (chooser : Nat → Nat)
        (expired : Nat → Bool),
      (∀ i, expired i = true → expired (i+1) = true) →
      ∀ (w : List Char) (wd ht : Nat),
        (GeneratePuzzle (NewCrossword wd ht) ws chooser
            expired).2.1.placements.countP (fun pl => pl.word == w) ≤ 1) := by
  constructor
  · intro c u x y d hu
    exact putWord_used c u x y d hu
  · intro ws chooser expired hmono w wd ht
    have hb := generateAux_count ws chooser expired hmono w ws.length 0 0
      (NewCrossword wd ht)
    have hfresh : (NewCrossword wd ht).placements.countP
        (fun pl => pl.word == w) = 0 := rfl
    have hnu : ((if w ∈ (NewCrossword wd ht).usedWords then 0 else 1) :
        Nat) = 1 := by
      rw [if_neg]
      intro hmem
      exact absurd hmem (by simp [NewCrossword])
    unfold GeneratePuzzle
    rw [hfresh, hnu] at hb
    omega

/-- Witness for `C5_duplicate_putWord_noop`: the no-op on a used word at
a concrete state, and the `DOG, DOG` scenario on a fresh 5×5 grid with a
never-expiring clock. -/
theorem C5_duplicate_putWord_noop_witness :
    (['A', 'B'] : List Char) ∈
      (putWord (NewCrossword 4 1) ['A', 'B'] 0 0 .horizontal).usedWords ∧
    putWord (putWord (NewCrossword 4 1) ['A', 'B'] 0 0 .horizontal)
        ['A', 'B'] 0 0 .horizontal =
      putWord (NewCrossword 4 1) ['A', 'B'] 0 0 .horizontal ∧
    (GeneratePuzzle (NewCrossword 5 5) [['D', 'O', 'G'], ['D', 'O', 'G']]
        (fun _ => 0) (fun _ => false)).2.1.placements.countP
      (fun pl => pl.word == ['D', 'O', 'G']) ≤ 1 :=
  ⟨by decide,
    C5_duplicate_putWord_noop.1
      (putWord (NewCrossword 4 1) ['A', 'B'] 0 0 .horizontal)
      ['A', 'B'] 0 0 .horizontal (by decide),
    C5_duplicate_putWord_noop.2 [['D', 'O', 'G'], ['D', 'O', 'G']]
      (fun _ => 0) (fun _ => false) (fun i h => by simp at h)
      ['D', 'O', 'G'] 5 5⟩

/-- C2: the claim states that when the engine backtracks past a committed
word (`removeWord` with the word and position of the matching `putWord`),
the corresponding placement record is removed, so the placement list
returns to its pre-commit value.  The code never touches the placement
list in `removeWord`: evaluating the failing input (commit `AB` at
`(0,0)` horizontally on a fresh 1-row, 4-column grid, then the matching
`removeWord`) shows the record still present afterwards, while the claim
requires the empty list. -/
theorem C2_placement_record_kept :
    canBePlaced (NewCrossword 4 1) ['A', 'B'] 0 0 .horizontal = 0 ∧
    (NewCrossword 4 1).placements = [] ∧
    (putWord (NewCrossword 4 1) ['A', 'B'] 0 0 .horizontal).placements =
      [⟨0, 0, .horizontal, 2, ['A', 'B']⟩] ∧
    (removeWord (putWord (NewCrossword 4 1) ['A', 'B'] 0 0 .horizontal)
        ['A', 'B'] 0 0 .horizontal).placements =
      [⟨0, 0, .horizontal, 2, ['A', 'B']⟩] := by decide

/-- C9: `removeWord` unconditionally deletes the word from the used-word
set and zeroes that orientation's occupancy entries along the given span,
for every state and arguments — in particular even when the immediately
preceding `putWord` was a no-op because the word was already used.
Concretely, with `AB` committed at `(0,0)` on a 1×4 grid, a second
guard-accepted `putWord` of `AB` at the same spot is a no-op, yet the
matching `removeWord` erases the used-set entry and occupancy of the
original placement, leaving a state different from the one before the
commit/undo pair. -/
theorem C9_removeWord_unconditional :
    (∀ (c : Crossword) (w : List Char) (x y : Int) (dir : Direction),
      w ∉ (removeWord c w x y dir).usedWords) ∧
    (∀ (c : Crossword) (w : List Char) (x y : Int) (dir : Direction)
        (i : Nat), i < w.length →
      ownMap dir (removeWord c w x y dir) (spanX dir x i)
        (spanY dir y i) = 0) ∧
    (let c0 := NewCrossword 4 1
     let ab : List Char := ['A', 'B']
     let c1 := putWord c0 ab 0 0 .horizontal
     canBePlaced c1 ab 0 0 .horizontal = 2 ∧
     putWord c1 ab 0 0 .horizontal = c1 ∧
     (removeWord (putWord c1 ab 0 0 .horizontal) ab 0 0
        .horizontal).usedWords = [] ∧
     getH (removeWord (putWord c1 ab 0 0 .horizontal) ab 0 0
        .horizontal) 0 0 = 0 ∧
     removeWord (putWord c1 ab 0 0 .horizontal) ab 0 0 .horizontal ≠ c1) := by
  refine ⟨?_, ?_, by decide⟩
  · intro c w x y dir hmem
    rw [removeWord_usedWords] at hmem
    rcases List.mem_filter.mp hmem with ⟨-, hne⟩
    simp at hne
  · intro c w x y dir i hi
    exact ownMap_removeWord_in c w x y dir _ _ ⟨i, hi, rfl, rfl⟩

/-- Witness for `C9_removeWord_unconditional` (its first two conjuncts
are universally quantified with hypotheses): instantiated at the concrete
1×4 state with `AB` removed at `(0,0)` horizontally, offset 0. -/
theorem C9_removeWord_unconditional_witness :
    (0 < (['A', 'B'] : List Char).length) ∧
    (['A', 'B'] : List Char) ∉
      (removeWord (putWord (NewCrossword 4 1) ['A', 'B'] 0 0 .horizontal)
        ['A', 'B'] 0 0 .horizontal).usedWords ∧
    ownMap .horizontal
      (removeWord (putWord (NewCrossword 4 1) ['A', 'B'] 0 0 .horizontal)
        ['A', 'B'] 0 0 .horizontal)
      (spanX .horizontal 0 0) (spanY .horizontal 0 0) = 0 :=
  ⟨by decide,
    C9_removeWord_unconditional.1
      (putWord (NewCrossword 4 1) ['A', 'B'] 0 0 .horizontal)
      ['A', 'B'] 0 0 .horizontal,
    C9_removeWord_unconditional.2.1
      (putWord (NewCrossword 4 1) ['A', 'B'] 0 0 .horizontal)
      ['A', 'B'] 0 0 .horizontal 0 (by decide)⟩

/-- C3 (counterexample): the claim states that once the deadline trips,
every open frame unwinds with no further board mutation, leaving the
board as it was at the moment of expiry.  Concretely, on a fresh 1×4 grid
with words `AB`, `CD` and a clock whose first reading (at the root call)
is unexpired and whose later readings are expired: the root commits `AB`
at `(0,0)`; the recursive call sees the deadline and fails; the root then
calls `removeWord` while unwinding, so the final board is blank and
differs from the board at the moment of expiry (which held `A`, `B` and a
block marker).  The first conjunct checks that the modelled clock stream
is monotone (a real wall clock only moves forward). -/
theorem C3_unwind_mutation_cx :
    (∀ i : Nat, decide (1 ≤ i) = true → decide (1 ≤ i + 1) = true) ∧
    (let s0 := NewCrossword 4 1
     let ab : List Char := ['A', 'B']
     let cd : List Char := ['C', 'D']
     let expired := fun t => decide (1 ≤ t)
     let r := GeneratePuzzle s0 [ab, cd] (fun _ => 0) expired
     let mid := putWord s0 ab 0 0 .horizontal
     expired 0 = false ∧
     expired 1 = true ∧
     findBestPosition s0 ab 0 = some ⟨0, 0, .horizontal⟩ ∧
     r.1 = false ∧
     r.2.1.board ≠ mid.board ∧
     mid.board ≠ s0.board ∧
     r.2.1.board = s0.board) :=
  ⟨fun i h => by
    simp only [decide_eq_true_eq] at h ⊢
    omega,
  by decide⟩

/-- C3 (amended): the deadline check is a cooperative cancellation point:
a recursive frame entered after the deadline has tripped returns failure
immediately without any mutation of the state.  Frames that had already
committed a word before expiry, however, do undo their commit
(`removeWord`) while unwinding, so the final board is the board at expiry
with the open frames' placements rolled back — not the untouched
at-expiry board the claim describes (see the counterexample). -/
theorem C3_expired_no_mutation (ws : List (List Char))
    (chooser : Nat → Nat) (expired : Nat → Bool) (fuel pos t : Nat)
    (c : Crossword) (h : expired t = true) :
    generateAux ws chooser expired (fuel+1) pos t c = (false, c, t+1) :=
  generateAux_expired ws chooser expired fuel pos t c h

/-- Witness for `C3_expired_no_mutation`: an already-expired clock on a
fresh 2×2 grid with one word. -/
theorem C3_expired_no_mutation_witness :
    ((fun _ : Nat => true) 0 = true) ∧
    generateAux [['A', 'B']] (fun _ => 0) (fun _ => true) 1 0 0
      (NewCrossword 2 2) = (false, NewCrossword 2 2, 1) :=
  ⟨by decide,
    C3_expired_no_mutation [['A', 'B']] (fun _ => 0) (fun _ => true) 0 0 0
      (NewCrossword 2 2) (by decide)⟩

/-- C7: on a 3×3 grid, the 8-letter word `ELEPHANT` cannot be placed:
`findBestPosition` returns `none` (no candidate of either orientation is
accepted), and `GeneratePuzzle` skips the word and returns success with
the state untouched — in particular the placement list is empty.  The
hypothesis says the single deadline reading taken during the run is
unexpired (the run starts with a fresh one-minute budget). -/
theorem C7_elephant_skip (chooser : Nat → Nat) (expired : Nat → Bool)
    (h : expired 0 = false) :
    (∀ k, findBestPosition (NewCrossword 3 3)
      ['E', 'L', 'E', 'P', 'H', 'A', 'N', 'T'] k = none) ∧
    GeneratePuzzle (NewCrossword 3 3)
        [['E', 'L', 'E', 'P', 'H', 'A', 'N', 'T']] chooser expired =
      (true, NewCrossword 3 3, 1) ∧
    (NewCrossword 3 3).placements = [] := by
  have hbp : findBestPositions (NewCrossword 3 3)
      ['E', 'L', 'E', 'P', 'H', 'A', 'N', 'T'] = [] := by decide
  have hnone : ∀ k, findBestPosition (NewCrossword 3 3)
      ['E', 'L', 'E', 'P', 'H', 'A', 'N', 'T'] k = none := by
    intro k
    unfold findBestPosition
    rw [hbp]
    rfl
  have hn0 : findBestPosition (NewCrossword 3 3)
      (([['E', 'L', 'E', 'P', 'H', 'A', 'N', 'T']] :
        List (List Char)).getD 0 []) (chooser 0) = none := hnone (chooser 0)
  refine ⟨hnone, ?_, rfl⟩
  show generateAux [['E', 'L', 'E', 'P', 'H', 'A', 'N', 'T']] chooser
    expired 1 0 0 (NewCrossword 3 3) = (true, NewCrossword 3 3, 1)
  rw [generateAux_none _ _ _ _ _ _ _ h hn0, generateAux_zero]

/-- Witness for `C7_elephant_skip`: a clock that never expires. -/
theorem C7_elephant_skip_witness :
    ((fun _ : Nat => false) 0 = false) ∧
    GeneratePuzzle (NewCrossword 3 3)
        [['E', 'L', 'E', 'P', 'H', 'A', 'N', 'T']] (fun _ => 0)
        (fun _ => false) =
      (true, NewCrossword 3 3, 1) :=
  ⟨by decide,
    (C7_elephant_skip (fun _ => 0) (fun _ => false) (by decide)).2.1⟩

/-- C6 (counterexample): the claim additionally asserts that every counted
intersection cell is claimed by the opposite-orientation occupancy map.
This fails: on a 1×4 grid with `AB` committed horizontally at `(0,1)`
(a state reached by one guarded `putWord` from a fresh grid),
`canBePlaced` accepts placing `AB` again over itself with intersection
count 2, yet the counted cell `(0,1)` already holds the matching letter
`A` while the vertical occupancy map claims nothing there. -/
theorem C6_intersections_cx :
    let c0 := NewCrossword 4 1
    let ab : List Char := ['A', 'B']
    let c1 := putWord c0 ab 0 1 .horizontal
    canBePlaced c0 ab 0 1 .horizontal = 0 ∧
    canBePlaced c1 ab 0 1 .horizontal = 2 ∧
    getCellB c1 0 1 = 'A' ∧
    getV c1 0 1 = 0 := by decide

/-- C6 (amended): for every word and in-grid position that `canBePlaced`
accepts, the returned intersection count equals the number of cells along
the word's span whose existing grid character already equals the word's
character at that offset.  (The claim's further assertion that each such
cell is claimed by the opposite-orientation occupancy map is dropped: it
is refuted by the counterexample.) -/
theorem C6_intersection_count (c : Crossword) (w : List Char) (x y : Int)
    (dir : Direction) (h : 0 ≤ canBePlaced c w x y dir) :
    canBePlaced c w x y dir =
      ((List.range w.length).countP
        (fun i =>
          getCellB c (spanX dir x i) (spanY dir y i) == w.getD i ' ') :
        Int) := by
  obtain ⟨n0, hscan, -, heq⟩ := canBePlaced_nonneg c w x y dir h
  rw [heq, scanWord_count c w x y dir n0 hscan]

/-- Witness for `C6_intersection_count` at a concrete accepted placement:
`AB` placed over itself on the 1×4 grid scores 2 = both cells match. -/
theorem C6_intersection_count_witness :
    0 ≤ canBePlaced (putWord (NewCrossword 4 1) ['A', 'B'] 0 1 .horizontal)
        ['A', 'B'] 0 1 .horizontal ∧
    canBePlaced (putWord (NewCrossword 4 1) ['A', 'B'] 0 1 .horizontal)
        ['A', 'B'] 0 1 .horizontal =
      ((List.range (['A', 'B'] : List Char).length).countP
        (fun i =>
          getCellB (putWord (NewCrossword 4 1) ['A', 'B'] 0 1 .horizontal)
            (spanX .horizontal 0 i) (spanY .horizontal 1 i) ==
          (['A', 'B'] : List Char).getD i ' ') : Int) :=
  ⟨by decide,
    C6_intersection_count (putWord (NewCrossword 4 1) ['A', 'B'] 0 1
      .horizontal) ['A', 'B'] 0 1 .horizontal (by decide)⟩

/-- C10 (counterexample): the occupied-cells-hold-letters invariant fails
once matching `removeWord` calls are allowed.  `MN` is committed
vertically at `(0,3)` on a 4-wide, 3-tall grid; a second, guard-accepted
`putWord` of the already-used `MN` at `(0,1)` is a no-op; `A` (a
one-letter word) is committed at `(2,1)`; the `removeWord` matching the
no-op `putWord` (same word, coordinates and orientation) then blanks the
board cell `(2,1)` while `hWords` still claims it. -/
theorem C10_occupied_blank_cx :
    let c0 := NewCrossword 4 3
    let mn : List Char := ['M', 'N']
    let c1 := putWord c0 mn 0 3 .vertical
    let c2 := putWord c1 mn 0 1 .vertical
    let c3 := putWord c2 ['A'] 2 1 .horizontal
    let c4 := removeWord c3 mn 0 1 .vertical
    LetterWord mn ∧ LetterWord ['A'] ∧
    canBePlaced c0 mn 0 3 .vertical = 0 ∧
    canBePlaced c1 mn 0 1 .vertical = 0 ∧
    canBePlaced c2 ['A'] 2 1 .horizontal = 0 ∧
    getH c4 2 1 = 1 ∧
    getCellB c4 2 1 = ' ' := by decide

/-- C10 (amended): in every state reachable from a fresh grid through
`canBePlaced`-guarded `putWord` calls on letter words (no `removeWord`
calls), every cell with a positive entry in either occupancy map holds a
letter character: neither blank nor the block marker.  `removeWord` calls
must be excluded: a matching remove of a duplicate (no-op) commit can
blank a claimed cell, as the counterexample shows. -/
theorem C10_puts_only_occupied_letter (ops : List PutOp) (wd ht : Nat)
    (hlet : ∀ o ∈ ops, LetterWord o.word) :
    OccupiedLetter (applyPuts ops (NewCrossword wd ht)) :=
  (invariant_applyPuts ops (NewCrossword wd ht) (Dims_NewCrossword wd ht)
    (OccupiedLetter_NewCrossword wd ht)
    (NoAdjacentCollinear_NewCrossword wd ht) hlet).2.1

/-- Witness for `C10_puts_only_occupied_letter`: one guarded commit of
`AB` on a fresh 4×3 grid. -/
theorem C10_puts_only_occupied_letter_witness :
    (∀ o ∈ [PutOp.mk ['A', 'B'] 0 0 .horizontal], LetterWord o.word) ∧
    OccupiedLetter
      (applyPuts [PutOp.mk ['A', 'B'] 0 0 .horizontal]
        (NewCrossword 4 3)) :=
  ⟨by decide,
    C10_puts_only_occupied_letter [PutOp.mk ['A', 'B'] 0 0 .horizontal]
      4 3 (by decide)⟩

/-- C8 (counterexample): the no-adjacent-collinear invariant fails once
matching `removeWord` calls are allowed.  On an 8-wide, 3-tall grid: `MN`
and `OP` are committed vertically at `(0,5)` and `(0,7)` (parking);
guard-accepted no-op commits of the used words `MN` at `(0,1)` and `OP`
at `(0,2)` follow; the one-letter word `A` is committed at `(2,1)`; the
removes matching the two no-op commits then blank `(2,1)` and `(2,2)`
(block-clearing sees no adjacent letters), after which `KL` is accepted
and committed horizontally at `(2,2)`.  The final state has the adjacent
collinear cells `(2,1)` and `(2,2)` claimed by two different horizontal
words with no block marker or boundary between them. -/
theorem C8_adjacent_collinear_cx :
    let c0 := NewCrossword 8 3
    let mn : List Char := ['M', 'N']
    let op : List Char := ['O', 'P']
    let kl : List Char := ['K', 'L']
    let c1 := putWord c0 mn 0 5 .vertical
    let c2 := putWord c1 mn 0 1 .vertical
    let c3 := putWord c2 op 0 7 .vertical
    let c4 := putWord c3 op 0 2 .vertical
    let c5 := putWord c4 ['A'] 2 1 .horizontal
    let c6 := removeWord c5 mn 0 1 .vertical
    let c7 := removeWord c6 op 0 2 .vertical
    let c8 := putWord c7 kl 2 2 .horizontal
    canBePlaced c0 mn 0 5 .vertical = 0 ∧
    canBePlaced c1 mn 0 1 .vertical = 0 ∧
    canBePlaced c2 op 0 7 .vertical = 0 ∧
    canBePlaced c3 op 0 2 .vertical = 0 ∧
    canBePlaced c4 ['A'] 2 1 .horizontal = 0 ∧
    canBePlaced c7 kl 2 2 .horizontal = 0 ∧
    0 < getH c8 2 1 ∧
    0 < getH c8 2 2 ∧
    getH c8 2 1 ≠ getH c8 2 2 := by decide

/-- C8 (amended): in every state reachable from a fresh grid through
`canBePlaced`-guarded `putWord` calls on letter words (no `removeWord`
calls), no two distinct placements of the same orientation occupy
adjacent collinear cells: consecutive same-axis cells claimed by the same
orientation's occupancy map always carry the same word ordinal.
`removeWord` calls must be excluded: a matching remove of a duplicate
(no-op) commit can strip the separator state that protects a committed
word, as the counterexample shows. -/
theorem C8_puts_only_no_adjacent (ops : List PutOp) (wd ht : Nat)
    (hlet : ∀ o ∈ ops, LetterWord o.word) :
    NoAdjacentCollinear (applyPuts ops (NewCrossword wd ht)) :=
  (invariant_applyPuts ops (NewCrossword wd ht) (Dims_NewCrossword wd ht)
    (OccupiedLetter_NewCrossword wd ht)
    (NoAdjacentCollinear_NewCrossword wd ht) hlet).2.2

/-- Witness for `C8_puts_only_no_adjacent`: two guarded commits on a
fresh 4×3 grid. -/
theorem C8_puts_only_no_adjacent_witness :
    (∀ o ∈ [PutOp.mk ['A', 'B'] 0 0 .horizontal,
        PutOp.mk ['B', 'C'] 0 1 .vertical], LetterWord o.word) ∧
    NoAdjacentCollinear
      (applyPuts [PutOp.mk ['A', 'B'] 0 0 .horizontal,
        PutOp.mk ['B', 'C'] 0 1 .vertical] (NewCrossword 4 3)) :=
  ⟨by decide,
    C8_puts_only_no_adjacent [PutOp.mk ['A', 'B'] 0 0 .horizontal,
      PutOp.mk ['B', 'C'] 0 1 .vertical] 4 3 (by decide)⟩

end CrosswordGo
